import Mathlib

/-
Verification development for the natural date/time resolution engine of the
calendar-bot repository (src/calendar_bot/utils/datetime_parser.py).

The Python source is shallowly embedded below:
  * machine integers are modelled as Int (Python ints are unbounded);
  * Python strings are Lean String / List Char (ASCII case folding, which
    covers every token format the source recognises);
  * the regular expressions of TIME_PATTERNS are modelled structurally
    (the patterns are anchored and unambiguous, see parse_time below);
  * datetime objects are modelled by their calendar fields; comparisons of
    timezone-aware datetimes compare UTC instants, modelled in whole seconds
    (every datetime built by the source has zero seconds and microseconds,
    so comparing against the floor-second of "now" is exact);
  * a pytz timezone is modelled as a pair of offset functions, one used when
    localizing a naive datetime (pytz localize with its default is_dst=False)
    and one giving the offset in force at a given UTC instant;
  * Python exceptions escaping a function are modelled as Option.none.
-/

/-! ### Character and string helpers (model of Python str methods / int()) -/

/-- Model of the whitespace class stripped by Python str.strip(). -/
def pyIsSpace (c : Char) : Bool :=
  c = ' ' || c = '\t' || c = '\n' || c = '\r' || c.toNat = 11 || c.toNat = 12

/-- Python str.strip() on a character list. -/
def pyStrip (cs : List Char) : List Char :=
  ((cs.dropWhile pyIsSpace).reverse.dropWhile pyIsSpace).reverse

/-- ASCII lower-casing, the fragment of Python str.lower() relevant to the
recognised month, weekday and meridiem tokens. -/
def pyLower (cs : List Char) : List Char := cs.map Char.toLower

/-- Decimal digit value of a character, if it is a digit. -/
def pyDigit? (c : Char) : Option Int :=
  if 48 ≤ c.toNat ∧ c.toNat ≤ 57 then some ((c.toNat : Int) - 48) else none

/-- Value of a nonempty all-digit run, accumulator form. -/
def digitsValAux : List Char → Int → Option Int
  | [], acc => some acc
  | c :: cs, acc =>
    match pyDigit? c with
    | some d => digitsValAux cs (acc * 10 + d)
    | none => none

/-- Value of a nonempty all-digit run. -/
def digitsVal : List Char → Option Int
  | [] => none
  | c :: cs => digitsValAux (c :: cs) 0

/-- Model of Python int(str): optional surrounding whitespace, optional sign,
then a nonempty ASCII digit run.  (Digit-group underscores and non-ASCII
decimal digits accepted by CPython are not modelled; no recognised token
contains them.) -/
def pyInt? (s : String) : Option Int :=
  match pyStrip s.toList with
  | '-' :: rest => (digitsVal rest).map (fun n => -n)
  | '+' :: rest => digitsVal rest
  | cs => digitsVal cs

/-- name.startswith(q): does the first list start with the second? -/
def strStartsWith : List Char → List Char → Bool
  | _, [] => true
  | [], _ :: _ => false
  | c :: cs, p :: ps => c = p && strStartsWith cs ps

/-! ### Calendar arithmetic (model of calendar.isleap / calendar.monthrange) -/

/-- calendar.isleap.  Int % and / are euclidean here, agreeing with Python
for the positive moduli and divisors used throughout. -/
def isleap (y : Int) : Bool :=
  (y % 4 == 0) && (!(y % 100 == 0) || (y % 400 == 0))

/-- days_in_month (datetime_parser.py lines 51-53), i.e.
calendar.monthrange(year, month)[1].  monthrange maps an out-of-range year to
2000 + year % 400, which leaves the leap predicate unchanged, so the model is
uniform in the year.  Months outside 1..12 raise in the source and are never
passed to it; the model returns 0 there. -/
def days_in_month (y m : Int) : Int :=
  if m = 2 then (if isleap y then 29 else 28)
  else if m = 4 ∨ m = 6 ∨ m = 9 ∨ m = 11 then 30
  else if 1 ≤ m ∧ m ≤ 12 then 31
  else 0

/-- Days in the months of year y strictly before month m (0 for January). -/
def daysBeforeMonth (y m : Int) : Int :=
  let l : Int := if isleap y then 1 else 0
  if m = 1 then 0 else if m = 2 then 31 else if m = 3 then 59 + l
  else if m = 4 then 90 + l else if m = 5 then 120 + l else if m = 6 then 151 + l
  else if m = 7 then 181 + l else if m = 8 then 212 + l else if m = 9 then 243 + l
  else if m = 10 then 273 + l else if m = 11 then 304 + l else if m = 12 then 334 + l
  else 0

/-- Days in all years strictly before year y of the proleptic Gregorian
calendar (years counted from 1, as Python datetime does). -/
def daysBeforeYear (y : Int) : Int :=
  365 * (y - 1) + (y - 1) / 4 - (y - 1) / 100 + (y - 1) / 400

/-- Proleptic Gregorian ordinal of a date, as in Python
datetime.date.toordinal: ordinal 1 is 0001-01-01. -/
def toOrdinal (y m d : Int) : Int :=
  daysBeforeYear y + daysBeforeMonth y m + d

/-- A calendar date, the (year, month, day) fields of a Python datetime. -/
structure Date where
  year : Int
  month : Int
  day : Int
deriving DecidableEq

/-- A real calendar date in the range Python datetime can build dates in. -/
def Date.Valid (dt : Date) : Prop :=
  1 ≤ dt.year ∧ 1 ≤ dt.month ∧ dt.month ≤ 12 ∧ 1 ≤ dt.day ∧
    dt.day ≤ days_in_month dt.year dt.month

instance (dt : Date) : Decidable dt.Valid := by
  unfold Date.Valid; exact inferInstance

/-- Ordinal of a Date. -/
def Date.ordinal (dt : Date) : Int := toOrdinal dt.year dt.month dt.day

/-- datetime.weekday(): Monday is 0.  0001-01-01 (ordinal 1) is a Monday. -/
def Date.weekday (dt : Date) : Int := (dt.ordinal + 6) % 7

/-- The next calendar day. -/
def succDay (dt : Date) : Date :=
  if dt.day < days_in_month dt.year dt.month then ⟨dt.year, dt.month, dt.day + 1⟩
  else if dt.month < 12 then ⟨dt.year, dt.month + 1, 1⟩
  else ⟨dt.year + 1, 1, 1⟩

/-- now + timedelta(days=k) on the date fields (tz-aware datetime addition in
Python advances the wall-clock fields). -/
def addDays (dt : Date) : Nat → Date
  | 0 => dt
  | k + 1 => succDay (addDays dt k)

/-! ### Time-of-day resolver (parse_time, _adjust_12h, TIME_PATTERNS) -/

/-- Result of parse_time.  The source returns (None, None) for an absent or
empty time string, (-1, -1) for a string matching no pattern, and (h, m)
otherwise; the three shapes are the three constructors here. -/
inductive TimeResult
  | notSpecified
  | invalid
  | time (h mi : Int)
deriving DecidableEq

/-- Value of the regex group ([01]?[0-9]|2[0-3]) when it must match a whole
token (all four TIME_PATTERNS anchor it on both sides): one digit, or 0/1
followed by a digit, or 2 followed by 0..3. -/
def hourVal : List Char → Option Int
  | [c] => pyDigit? c
  | [c1, c2] =>
    match pyDigit? c1, pyDigit? c2 with
    | some d1, some d2 =>
      if d1 ≤ 1 then some (10 * d1 + d2)
      else if d1 = 2 ∧ d2 ≤ 3 then some (10 * d1 + d2)
      else none
    | _, _ => none
  | _ => none

/-- Value of the anchored regex group ([0-5][0-9]). -/
def minuteVal : List Char → Option Int
  | [c1, c2] =>
    match pyDigit? c1, pyDigit? c2 with
    | some d1, some d2 =>
      if d1 ≤ 5 then some (10 * d1 + d2) else none
    | _, _ => none
  | _ => none

/-- Strip a trailing am/pm (the lower-cased token); returns the body and
whether the meridiem was pm. -/
def splitMeridiem (cs : List Char) : Option (List Char × Bool) :=
  match cs.reverse with
  | 'm' :: 'a' :: body => some (body.reverse, false)
  | 'm' :: 'p' :: body => some (body.reverse, true)
  | _ => none

/-- Split H[H]:MM at the colon: hour token and minute token, both validated
by the anchored groups (neither group can contain a colon). -/
def splitHM (cs : List Char) : Option (Int × Int) :=
  match cs.span (fun c => c ≠ ':') with
  | (hs, ':' :: ms) =>
    match hourVal hs, minuteVal ms with
    | some h, some mi => some (h, mi)
    | _, _ => none
  | _ => none

/-- _adjust_12h (lines 115-125).  Returns .invalid for the sentinel (-1, -1).
Note the source rejects only hours > 12; hour 0 passes through. -/
def adjust_12h (hours minutes : Int) (isPM : Bool) : TimeResult :=
  if 12 < hours then TimeResult.invalid
  else if isPM ∧ hours ≠ 12 then TimeResult.time (hours + 12) minutes
  else if ¬isPM ∧ hours = 12 then TimeResult.time 0 minutes
  else TimeResult.time hours minutes

/-- parse_time (lines 89-113).  `if not time_str` is true exactly for None
and the empty string; then the stripped, lower-cased token is matched against
the four TIME_PATTERNS.  The patterns are anchored and mutually exclusive by
(presence of meridiem, presence of colon), so trying the meridiem split first
and the colon split second is equivalent to the source's pattern order. -/
def parse_time (t : Option String) : TimeResult :=
  match t with
  | none => TimeResult.notSpecified
  | some s =>
    if s = "" then TimeResult.notSpecified
    else
      match splitMeridiem (pyLower (pyStrip s.toList)) with
      | some (body, isPM) =>
        match splitHM body with
        | some (h, mi) => adjust_12h h mi isPM
        | none =>
          match hourVal body with
          | some h => adjust_12h h 0 isPM
          | none => TimeResult.invalid
      | none =>
        match splitHM (pyLower (pyStrip s.toList)) with
        | some (h, mi) => TimeResult.time h mi
        | none =>
          match hourVal (pyLower (pyStrip s.toList)) with
          | some h => TimeResult.time h 0
          | none => TimeResult.invalid

/-! ### Day resolver (DAYS_OF_WEEK, parse_day_name, parse_day) -/

/-- DAYS_OF_WEEK (lines 16-24), in insertion order. -/
def daysOfWeek : List (String × Int) :=
  [("monday", 0), ("tuesday", 1), ("wednesday", 2), ("thursday", 3),
   ("friday", 4), ("saturday", 5), ("sunday", 6)]

/-- The for-loop of parse_day_name: first table entry whose name starts with
the query. -/
def findDow : List (String × Int) → List Char → Option Int
  | [], _ => none
  | (nm, v) :: rest, q =>
    if strStartsWith nm.toList q then some v else findDow rest q

/-- parse_day_name (lines 127-135). -/
def parse_day_name (s : String) : Option Int :=
  findDow daysOfWeek (pyLower s.toList)

/-- parse_day (lines 146-164).  The source takes int | str | None and returns
(None, False) for absent, (-1, False) for invalid, (n, False) for a numeric
day and (dow, True) for a weekday name; the Option Int × Bool pair mirrors
that exactly (some (-1) is the invalid sentinel). -/
def parse_day (day : Option (Sum Int String)) : Option Int × Bool :=
  match day with
  | none => (none, false)
  | some (Sum.inl n) =>
    if 1 ≤ n ∧ n ≤ 31 then (some n, false) else (some (-1), false)
  | some (Sum.inr s) =>
    match pyInt? s with
    | some n => if 1 ≤ n ∧ n ≤ 31 then (some n, false) else (some (-1), false)
    | none =>
      match parse_day_name s with
      | some dow => (some dow, true)
      | none => (some (-1), false)

/-! ### Month resolver (parse_month) -/

/-- The full English month names matched by strptime %B (case-insensitive,
whole-token). -/
def monthNames : List (String × Int) :=
  [("january", 1), ("february", 2), ("march", 3), ("april", 4), ("may", 5),
   ("june", 6), ("july", 7), ("august", 8), ("september", 9), ("october", 10),
   ("november", 11), ("december", 12)]

/-- The abbreviated month names matched by strptime %b. -/
def monthAbbrs : List (String × Int) :=
  [("jan", 1), ("feb", 2), ("mar", 3), ("apr", 4), ("may", 5), ("jun", 6),
   ("jul", 7), ("aug", 8), ("sep", 9), ("oct", 10), ("nov", 11), ("dec", 12)]

/-- Whole-token lookup in a name table. -/
def lookupName : List (String × Int) → List Char → Option Int
  | [], _ => none
  | (nm, v) :: rest, q => if nm.toList = q then some v else lookupName rest q

/-- parse_month (lines 66-87) on a present month token: int() conversion
first (range-checked, with no fallback to name matching when the numeric
value is out of range, just as the source returns None there), then %B, then
%b.  The None input case is handled at the call site in parse, as the source
call site guards with month is not None. -/
def parse_month (m : Sum Int String) : Option Int :=
  match m with
  | Sum.inl n => if 1 ≤ n ∧ n ≤ 12 then some n else none
  | Sum.inr s =>
    match pyInt? s with
    | some n => if 1 ≤ n ∧ n ≤ 12 then some n else none
    | none =>
      match lookupName monthNames (pyLower s.toList) with
      | some v => some v
      | none => lookupName monthAbbrs (pyLower s.toList)

/-! ### Timezones, clocks and instants -/

/-- A pytz timezone, reduced to what the source consumes: the UTC offset (in
seconds, local = UTC + offset) selected when localizing a naive datetime
(pytz localize with its default is_dst=False), and the offset in force at a
given UTC instant (used when converting a UTC instant back to local time).
Instants are whole seconds on the proleptic Gregorian scale of naiveSec. -/
structure Timezone where
  offsetAtLocal : Int → Int
  offsetAtUtc : Int → Int

/-- The UTC timezone: both offsets are identically zero. -/
def utcTz : Timezone := ⟨fun _ => 0, fun _ => 0⟩

/-- Naive instant (seconds) of a wall-clock reading, on the scale whose day
numbers are toOrdinal. -/
def naiveSec (y m d h mi : Int) : Int :=
  toOrdinal y m d * 86400 + h * 3600 + mi * 60

/-- America/New_York during 2024, modelled from the IANA/pytz zone data:
standard offset UTC-5, daylight offset UTC-4 between the transitions at
2024-03-10 07:00 UTC and 2024-11-03 06:00 UTC.  Localizing a naive time with
is_dst=False picks the daylight offset exactly for the unambiguous daylight
wall-clock range [2024-03-10 03:00, 2024-11-03 01:00); both the nonexistent
spring-forward hour and the ambiguous fall-back hour resolve to standard
time.  (Only 2024 instants are asked of this model.) -/
def nyTz : Timezone :=
  { offsetAtLocal := fun n =>
      if naiveSec 2024 3 10 3 0 ≤ n ∧ n < naiveSec 2024 11 3 1 0 then -14400 else -18000
    offsetAtUtc := fun n =>
      if naiveSec 2024 3 10 7 0 ≤ n ∧ n < naiveSec 2024 11 3 6 0 then -14400 else -18000 }

/-- The clock reading self.now = datetime.now(self.timezone): the parser
reads only its local year/month/day fields, its weekday, and compares
localized targets against it as an instant.  utc is the floor-second UTC
instant of the reading; comparing a whole-second target t against an aware
now is exactly t ≤ utc, since sub-second parts of now only ever make now
later within the same second. -/
structure Clock where
  year : Int
  month : Int
  day : Int
  utc : Int
deriving DecidableEq

/-- The date fields of the clock reading. -/
def Clock.date (c : Clock) : Date := ⟨c.year, c.month, c.day⟩

/-- A clock reading datetime.now can actually produce: a real calendar date,
far enough from datetime.max that the one-week lookahead of the parser stays
representable. -/
def Clock.Valid (c : Clock) : Prop := c.date.Valid ∧ c.year ≤ 9998

instance (c : Clock) : Decidable c.Valid := by
  unfold Clock.Valid; exact inferInstance

/-- datetime(y, m, d, h, mi) followed by timezone.localize: the constructor
validates every field (ValueError, i.e. none, otherwise) and the localized
value is determined by its naive instant.  Seconds and microseconds are
always zero at the two construction sites of the source. -/
def mkNaive (y m d h mi : Int) : Option Int :=
  if 1 ≤ y ∧ y ≤ 9999 ∧ 1 ≤ m ∧ m ≤ 12 ∧ 1 ≤ d ∧ d ≤ days_in_month y m
      ∧ 0 ≤ h ∧ h ≤ 23 ∧ 0 ≤ mi ∧ mi ≤ 59 then
    some (naiveSec y m d h mi)
  else none

/-! ### Result type (ParsedDateTime) -/

/-- The human-readable error strings of the source, as structured data so
that each message provably names exactly the components the source
interpolates into it:
  invalidTime t      = "Invalid time: (t). Use formats like ..."
  invalidDay d       = "Invalid day: (d). Use day number (1-31) or day name ..."
  invalidMonth m     = "Invalid month: (m). Use month name or number (1-12)."
  invalidDate m d    = "Invalid date: (month_name m) does not have (d) days."
  invalidDateYear m y d = "Invalid date: (month_name m) (y) does not have (d) days."
-/
inductive ErrMsg
  | invalidTime (raw : Option String)
  | invalidDay (raw : Option (Sum Int String))
  | invalidMonth (raw : Sum Int String)
  | invalidDate (month : Int) (dayCount : Int)
  | invalidDateYear (month : Int) (year : Int) (dayCount : Int)
deriving DecidableEq

/-- ParsedDateTime (lines 34-48). -/
structure ParsedDateTime where
  year : Int
  month : Int
  day : Int
  hour : Int
  minute : Int
  is_valid : Bool
  error_message : Option ErrMsg
deriving DecidableEq

/-- A valid result (the dataclass with its default is_valid=True). -/
def ParsedDateTime.mkValid (y m d h mi : Int) : ParsedDateTime :=
  ⟨y, m, d, h, mi, true, none⟩

/-- ParsedDateTime.invalid (lines 46-48). -/
def ParsedDateTime.mkInvalid (e : ErrMsg) : ParsedDateTime :=
  ⟨0, 0, 0, 0, 0, false, some e⟩

/-! ### Resolution engine (get_next_weekday, _find_next_month_with_day, parse) -/

/-- get_next_weekday (lines 137-144). -/
def get_next_weekday (c : Clock) (targetDow : Int) : Date :=
  let currentDow := c.date.weekday
  let d0 := (targetDow - currentDow + 7) % 7
  let daysAhead := if d0 = 0 then 7 else d0
  addDays c.date daysAhead.toNat

/-- The month increment with year wrap used by _find_next_month_with_day and
by the day-only branch of parse (month += 1; if month > 12: month = 1,
year += 1). -/
def nextMonth (p : Int × Int) : Int × Int :=
  if 12 < p.2 + 1 then (p.1 + 1, 1) else (p.1, p.2 + 1)

/-- k applications of nextMonth. -/
def advMonths (p : Int × Int) : Nat → Int × Int
  | 0 => p
  | k + 1 => advMonths (nextMonth p) k

/-- _find_next_month_with_day (lines 166-178): the loop body runs fuel times
(12 at the call site); after the last failed check the advanced pair is
returned unchecked. -/
def find_next_month_with_day (day : Int) (year month : Int) : Nat → Int × Int
  | 0 => (year, month)
  | fuel + 1 =>
    if day ≤ days_in_month year month then (year, month)
    else
      let p := nextMonth (year, month)
      find_next_month_with_day day p.1 p.2 fuel

/-- Lines 283-299 of parse, for the two branches that fall through to the
final time-only adjustment (year-only and nothing-specified; every other
branch fails one of the conjuncts of the line-284 guard, so it returns its
result unchanged).  In both these branches month was not specified and the
raw day is None, so the guard reduces to time is not None.  The datetime
construction at line 285 can raise (none); the roll-forward reads the date
fields of now + timedelta(days=1). -/
def resolveTail (tz : Timezone) (c : Clock) (time : Option String)
    (hours minutes py pm pd : Int) : Option ParsedDateTime :=
  match time with
  | none => some (ParsedDateTime.mkValid py pm pd hours minutes)
  | some _ =>
    match mkNaive py pm pd hours minutes with
    | none => none
    | some n =>
      if n - tz.offsetAtLocal n ≤ c.utc then
        let tm := addDays c.date 1
        some (ParsedDateTime.mkValid tm.year tm.month tm.day hours minutes)
      else some (ParsedDateTime.mkValid py pm pd hours minutes)

/-- parse (lines 180-299).  none models an exception escaping parse; the
only statements that can raise on well-typed input are the two datetime
constructions (lines 241 and 285), modelled by mkNaive. -/
def parse (tz : Timezone) (c : Clock) (year : Option Int)
    (month : Option (Sum Int String)) (day : Option (Sum Int String))
    (time : Option String) : Option ParsedDateTime :=
  let tr := parse_time time
  if tr = TimeResult.invalid then
    some (ParsedDateTime.mkInvalid (ErrMsg.invalidTime time))
  else
    let hours := match tr with | TimeResult.time h _ => h | _ => 0
    let minutes := match tr with | TimeResult.time _ mi => mi | _ => 0
    let pd? := (parse_day day).1
    if pd? = some (-1) then
      some (ParsedDateTime.mkInvalid (ErrMsg.invalidDay day))
    else if (parse_day day).2 then
      let nd := get_next_weekday c (pd?.getD 0)
      some (ParsedDateTime.mkValid nd.year nd.month nd.day hours minutes)
    else
      match month with
      | some mtok =>
        match parse_month mtok with
        | none => some (ParsedDateTime.mkInvalid (ErrMsg.invalidMonth mtok))
        | some pm =>
          match pd? with
          | some pd =>
            -- both month and day specified (lines 232-250)
            let py := year.getD c.year
            if days_in_month py pm < pd then
              some (ParsedDateTime.mkInvalid (ErrMsg.invalidDate pm pd))
            else if year.isSome then
              some (ParsedDateTime.mkValid py pm pd hours minutes)
            else
              match mkNaive py pm pd hours minutes with
              | none => none
              | some n =>
                if n - tz.offsetAtLocal n ≤ c.utc then
                  if days_in_month (py + 1) pm < pd then
                    some (ParsedDateTime.mkInvalid
                      (ErrMsg.invalidDateYear pm (py + 1) pd))
                  else some (ParsedDateTime.mkValid (py + 1) pm pd hours minutes)
                else some (ParsedDateTime.mkValid py pm pd hours minutes)
          | none =>
            -- only month specified (lines 252-256)
            let py0 := year.getD c.year
            let py := if year.isSome = false ∧ pm ≤ c.month then py0 + 1 else py0
            some (ParsedDateTime.mkValid py pm 1 hours minutes)
      | none =>
        match pd? with
        | some pd =>
          -- only day specified (lines 258-270)
          let start := if pd ≤ c.day then nextMonth (c.year, c.month)
                       else (c.year, c.month)
          let fm := find_next_month_with_day pd start.1 start.2 12
          some (ParsedDateTime.mkValid fm.1 fm.2 pd hours minutes)
        | none =>
          match year with
          | some y =>
            -- only year specified (lines 272-275), then lines 283-299
            resolveTail tz c time hours minutes y 1 1
          | none =>
            -- nothing specified (lines 277-281), then lines 283-299
            resolveTail tz c time hours minutes c.year c.month c.day

/-- The naive-scale instant of the Unix epoch 1970-01-01 00:00. -/
def epochSec : Int := naiveSec 1970 1 1 0 0

/-- to_utc_timestamp (lines 301-319).  The datetime constructor inside the
try block is mkNaive (ValueError becomes None); the aware local datetime
converted to UTC has instant n - offsetAtLocal n on the naive scale, and
int(timestamp()) rebases that whole second onto the Unix epoch exactly. -/
def to_utc_timestamp (tz : Timezone) (p : ParsedDateTime) : Option Int :=
  if p.is_valid = false then none
  else
    match mkNaive p.year p.month p.day p.hour p.minute with
    | none => none
    | some n => some (n - tz.offsetAtLocal n - epochSec)

/-- Localizing a Unix timestamp back into a timezone (datetime.fromtimestamp
with a tz / astimezone): the naive instant of the resulting wall-clock
tuple.  This is the reverse conversion named by the round-trip property; it
is not itself repository code. -/
def utcToLocalNaive (tz : Timezone) (ts : Int) : Int :=
  (ts + epochSec) + tz.offsetAtUtc (ts + epochSec)

/-- Lines 190-197 of parse: the (hours, minutes) pair the engine continues
with is the parsed time, or the 0/0 default when the time was not
specified. -/
def timeResolved (t : Option String) (h mi : Int) : Prop :=
  parse_time t = TimeResult.time h mi ∨
    (parse_time t = TimeResult.notSpecified ∧ h = 0 ∧ mi = 0)

instance (t : Option String) (h mi : Int) : Decidable (timeResolved t h mi) := by
  unfold timeResolved; exact inferInstance

/-- The first candidate (year, month) of the day-only search
(lines 260-267): the clock month when the requested day is still ahead in
it, otherwise the following month with year wrap. -/
def startPair (c : Clock) (pd : Int) : Int × Int :=
  if pd ≤ c.day then nextMonth (c.year, c.month) else (c.year, c.month)

/-- A fixed clock reading for concrete witnesses: 2024-01-10, 12:00 UTC,
in the UTC timezone (2024-01-10 was a Wednesday). -/
def cJan : Clock := ⟨2024, 1, 10, naiveSec 2024 1 10 12 0⟩

/-- A fixed clock reading 2024-02-01, 12:00 UTC (a leap year, for the
explicit-year February 29 scenario). -/
def cFeb : Clock := ⟨2024, 2, 1, naiveSec 2024 2 1 12 0⟩

/-- The weekday names in DAYS_OF_WEEK order, indexed by weekday number
(Monday = 0), for stating the prefix-matching property. -/
def dayName (d : Int) : String :=
  if d = 0 then "monday" else if d = 1 then "tuesday" else if d = 2 then "wednesday"
  else if d = 3 then "thursday" else if d = 4 then "friday" else if d = 5 then "saturday"
  else if d = 6 then "sunday" else ""

/-! ### Calendar lemmas -/

theorem days_in_month_ge (y m : Int) (h1 : 1 ≤ m) (h2 : m ≤ 12) :
    28 ≤ days_in_month y m := by
  unfold days_in_month
  split_ifs <;> omega

theorem days_in_month_le (y m : Int) : days_in_month y m ≤ 31 := by
  unfold days_in_month
  split_ifs <;> omega

theorem days_in_month_jan (y : Int) : days_in_month y 1 = 31 := by
  norm_num [days_in_month]

set_option maxRecDepth 8000 in
theorem daysBeforeMonth_succ (y m : Int) (h1 : 1 ≤ m) (h2 : m ≤ 11) :
    daysBeforeMonth y (m + 1) = daysBeforeMonth y m + days_in_month y m := by
  interval_cases m <;>
    cases hl : isleap y <;>
      norm_num [daysBeforeMonth, days_in_month, hl]

/-- Floor division by a positive k steps down by one exactly at multiples. -/
theorem ediv_pred (n k : Int) (hk : 0 < k) :
    (n - 1) / k = n / k - (if k ∣ n then 1 else 0) := by
  have hk0 : k ≠ 0 := by omega
  have hmod := Int.ediv_add_emod n k
  by_cases hd : k ∣ n
  · have hr : n % k = 0 := Int.emod_eq_zero_of_dvd hd
    have hq : k * (n / k) = n := by omega
    have h1 : n - 1 = (k - 1) + k * (n / k - 1) := by
      rw [mul_sub]; omega
    rw [if_pos hd, h1, Int.add_mul_ediv_left _ _ hk0,
      Int.ediv_eq_zero_of_lt (by omega) (by omega)]
    omega
  · have hr0 : 0 ≤ n % k := Int.emod_nonneg n hk0
    have hr1 : n % k ≠ 0 := fun h0 => hd (Int.dvd_of_emod_eq_zero h0)
    have hrk : n % k < k := Int.emod_lt_of_pos n hk
    have h1 : n - 1 = (n % k - 1) + k * (n / k) := by omega
    rw [if_neg hd, h1, Int.add_mul_ediv_left _ _ hk0,
      Int.ediv_eq_zero_of_lt (by omega) (by omega)]
    omega

theorem isleap_iff (y : Int) :
    isleap y = true ↔ ((4:Int) ∣ y ∧ (¬ (100:Int) ∣ y ∨ (400:Int) ∣ y)) := by
  have e4 : ((4:Int) ∣ y) ↔ y % 4 = 0 :=
    ⟨Int.emod_eq_zero_of_dvd, Int.dvd_of_emod_eq_zero⟩
  have e100 : ((100:Int) ∣ y) ↔ y % 100 = 0 :=
    ⟨Int.emod_eq_zero_of_dvd, Int.dvd_of_emod_eq_zero⟩
  have e400 : ((400:Int) ∣ y) ↔ y % 400 = 0 :=
    ⟨Int.emod_eq_zero_of_dvd, Int.dvd_of_emod_eq_zero⟩
  unfold isleap
  rw [Bool.and_eq_true, Bool.or_eq_true, Bool.not_eq_true', beq_iff_eq, beq_iff_eq,
    beq_eq_false_iff_ne]
  rw [← e4, ← e400]
  constructor
  · rintro ⟨h1, h2⟩
    refine ⟨h1, ?_⟩
    rcases h2 with h2 | h2
    · exact Or.inl (fun hc => h2 (e100.1 hc))
    · exact Or.inr h2
  · rintro ⟨h1, h2⟩
    refine ⟨h1, ?_⟩
    rcases h2 with h2 | h2
    · exact Or.inl (fun hc => h2 (e100.2 hc))
    · exact Or.inr h2

theorem daysBeforeYear_succ (y : Int) :
    daysBeforeYear (y + 1) = daysBeforeYear y + 365 + (if isleap y then 1 else 0) := by
  have h4 := ediv_pred y 4 (by norm_num)
  have h100 := ediv_pred y 100 (by norm_num)
  have h400 := ediv_pred y 400 (by norm_num)
  have i1 : (4:Int) ∣ 100 := by norm_num
  have i2 : (100:Int) ∣ 400 := by norm_num
  unfold daysBeforeYear
  have hs : y + 1 - 1 = y := by ring
  rw [hs]
  by_cases d4 : (4:Int) ∣ y
  · by_cases d100 : (100:Int) ∣ y
    · by_cases d400 : (400:Int) ∣ y
      · rw [if_pos ((isleap_iff y).2 ⟨d4, Or.inr d400⟩)]
        rw [if_pos d4] at h4; rw [if_pos d100] at h100; rw [if_pos d400] at h400
        omega
      · rw [if_neg (fun h => by
          rcases (isleap_iff y).1 h with ⟨_, h2⟩
          rcases h2 with h2 | h2
          · exact h2 d100
          · exact d400 h2)]
        rw [if_pos d4] at h4; rw [if_pos d100] at h100; rw [if_neg d400] at h400
        omega
    · have d400 : ¬ (400:Int) ∣ y := fun h => d100 (dvd_trans i2 h)
      rw [if_pos ((isleap_iff y).2 ⟨d4, Or.inl d100⟩)]
      rw [if_pos d4] at h4; rw [if_neg d100] at h100; rw [if_neg d400] at h400
      omega
  · have d100 : ¬ (100:Int) ∣ y := fun h => d4 (dvd_trans i1 h)
    have d400 : ¬ (400:Int) ∣ y := fun h => d100 (dvd_trans i2 h)
    rw [if_neg (fun h => d4 ((isleap_iff y).1 h).1)]
    rw [if_neg d4] at h4; rw [if_neg d100] at h100; rw [if_neg d400] at h400
    omega

theorem succDay_valid (dt : Date) (hv : dt.Valid) : (succDay dt).Valid := by
  obtain ⟨hy, hm1, hm2, hd1, hd2⟩ := hv
  unfold succDay Date.Valid
  split_ifs with h1 h2
  · refine ⟨?_, ?_, ?_, ?_, ?_⟩ <;> dsimp only <;> omega
  · have ha : 28 ≤ days_in_month dt.year (dt.month + 1) :=
      days_in_month_ge _ _ (by omega) (by omega)
    refine ⟨?_, ?_, ?_, ?_, ?_⟩ <;> dsimp only <;> omega
  · have hb : days_in_month (dt.year + 1) 1 = 31 := days_in_month_jan _
    refine ⟨?_, ?_, ?_, ?_, ?_⟩ <;> dsimp only <;> omega

theorem succDay_ordinal (dt : Date) (hv : dt.Valid) :
    (succDay dt).ordinal = dt.ordinal + 1 := by
  obtain ⟨hy, hm1, hm2, hd1, hd2⟩ := hv
  unfold succDay
  split_ifs with h1 h2
  · simp only [Date.ordinal, toOrdinal]; ring
  · have hde : dt.day = days_in_month dt.year dt.month := by omega
    have hstep := daysBeforeMonth_succ dt.year dt.month hm1 (by omega)
    simp only [Date.ordinal, toOrdinal]
    omega
  · have hm12 : dt.month = 12 := by omega
    have hde : dt.day = days_in_month dt.year dt.month := by omega
    have h365 := daysBeforeYear_succ dt.year
    simp only [Date.ordinal, toOrdinal, hm12]
    rw [hm12] at hde
    cases hl : isleap dt.year <;>
      rw [hl] at h365 <;>
        simp [daysBeforeMonth, days_in_month, hl] at hde h365 ⊢ <;>
          omega

theorem addDays_valid (dt : Date) (hv : dt.Valid) :
    ∀ k : Nat, (addDays dt k).Valid := by
  intro k
  induction k with
  | zero => exact hv
  | succ k ih => exact succDay_valid _ ih

theorem addDays_ordinal (dt : Date) (hv : dt.Valid) :
    ∀ k : Nat, (addDays dt k).ordinal = dt.ordinal + k := by
  intro k
  induction k with
  | zero => simp [addDays]
  | succ k ih =>
    have := succDay_ordinal _ (addDays_valid dt hv k)
    show (succDay (addDays dt k)).ordinal = dt.ordinal + (k + 1 : Nat)
    rw [this, ih]
    push_cast
    ring

theorem weekday_addDays (dt : Date) (hv : dt.Valid) (k : Nat) :
    (addDays dt k).weekday = (dt.weekday + k) % 7 := by
  unfold Date.weekday
  rw [addDays_ordinal dt hv k]
  have h1 : dt.ordinal + (k : Int) + 6 = (dt.ordinal + 6) + k := by ring
  rw [h1, Int.add_emod (dt.ordinal + 6) k 7,
    Int.add_emod ((dt.ordinal + 6) % 7) k 7, Int.emod_emod_of_dvd _ dvd_rfl]

theorem weekday_nonneg (dt : Date) : 0 ≤ dt.weekday :=
  Int.emod_nonneg _ (by norm_num)

theorem weekday_lt (dt : Date) : dt.weekday < 7 :=
  Int.emod_lt_of_pos _ (by norm_num)

/-! ### Resolver lemmas -/

theorem pyDigit_range (c : Char) (d : Int) (h : pyDigit? c = some d) :
    0 ≤ d ∧ d ≤ 9 := by
  simp only [pyDigit?] at h
  split_ifs at h with hc
  simp only [Option.some.injEq] at h
  omega

theorem hourVal_range (cs : List Char) (h : Int) (hp : hourVal cs = some h) :
    0 ≤ h ∧ h ≤ 23 := by
  rcases cs with _ | ⟨c1, _ | ⟨c2, _ | ⟨c3, rest⟩⟩⟩
  · simp [hourVal] at hp
  · simp only [hourVal] at hp
    have := pyDigit_range _ _ hp
    omega
  · simp only [hourVal] at hp
    rcases hd1 : pyDigit? c1 with _ | d1 <;> rcases hd2 : pyDigit? c2 with _ | d2 <;>
        simp only [hd1, hd2] at hp
    · simp at hp
    · simp at hp
    · simp at hp
    · have g1 := pyDigit_range _ _ hd1
      have g2 := pyDigit_range _ _ hd2
      split_ifs at hp with e1 e2 <;> simp only [Option.some.injEq] at hp <;> omega
  · simp [hourVal] at hp

theorem minuteVal_range (cs : List Char) (mi : Int) (hp : minuteVal cs = some mi) :
    0 ≤ mi ∧ mi ≤ 59 := by
  rcases cs with _ | ⟨c1, _ | ⟨c2, _ | ⟨c3, rest⟩⟩⟩
  · simp [minuteVal] at hp
  · simp [minuteVal] at hp
  · simp only [minuteVal] at hp
    rcases hd1 : pyDigit? c1 with _ | d1 <;> rcases hd2 : pyDigit? c2 with _ | d2 <;>
        simp only [hd1, hd2] at hp
    · simp at hp
    · simp at hp
    · simp at hp
    · have g1 := pyDigit_range _ _ hd1
      have g2 := pyDigit_range _ _ hd2
      split_ifs at hp with e1 <;> simp only [Option.some.injEq] at hp <;> omega
  · simp [minuteVal] at hp

theorem splitHM_range (cs : List Char) (hh mm : Int) (hp : splitHM cs = some (hh, mm)) :
    (0 ≤ hh ∧ hh ≤ 23) ∧ (0 ≤ mm ∧ mm ≤ 59) := by
  simp only [splitHM] at hp
  split at hp
  · rename_i hs ms heq
    rcases h1 : hourVal hs with _ | hv <;> rcases h2 : minuteVal ms with _ | mv <;>
        rw [h1, h2] at hp
    · simp at hp
    · simp at hp
    · simp at hp
    · simp only [Option.some.injEq, Prod.mk.injEq] at hp
      obtain ⟨e1, e2⟩ := hp
      subst e1; subst e2
      exact ⟨hourVal_range _ _ h1, minuteVal_range _ _ h2⟩
  · exact absurd hp (by simp)

theorem adjust_12h_range (h mi : Int) (p : Bool) (h' mi' : Int)
    (hh : 0 ≤ h ∧ h ≤ 23) (hm : 0 ≤ mi ∧ mi ≤ 59)
    (hp : adjust_12h h mi p = TimeResult.time h' mi') :
    (0 ≤ h' ∧ h' ≤ 23) ∧ (0 ≤ mi' ∧ mi' ≤ 59) := by
  simp only [adjust_12h] at hp
  split_ifs at hp with e1 e2 e3 <;> simp only [TimeResult.time.injEq] at hp <;>
      obtain ⟨a, b⟩ := hp <;> subst a <;> subst b <;> omega

theorem parse_time_range (t : Option String) (h mi : Int)
    (hp : parse_time t = TimeResult.time h mi) :
    (0 ≤ h ∧ h ≤ 23) ∧ (0 ≤ mi ∧ mi ≤ 59) := by
  rcases t with _ | s
  · simp [parse_time] at hp
  · simp only [parse_time] at hp
    split_ifs at hp with he
    split at hp
    · rename_i body isPM hsm
      split at hp
      · rename_i hh hmi hhm
        exact adjust_12h_range _ _ _ _ _ (splitHM_range _ _ _ hhm).1
          (splitHM_range _ _ _ hhm).2 hp
      · split at hp
        · rename_i hh hhv
          exact adjust_12h_range _ _ _ _ _ (hourVal_range _ _ hhv) (by omega) hp
        · simp at hp
    · split at hp
      · rename_i hh hmi hhm
        simp only [TimeResult.time.injEq] at hp
        obtain ⟨a, b⟩ := hp; subst a; subst b
        exact splitHM_range _ _ _ hhm
      · split at hp
        · rename_i hh hhv
          simp only [TimeResult.time.injEq] at hp
          obtain ⟨a, b⟩ := hp; subst a; subst b
          exact ⟨hourVal_range _ _ hhv, by omega⟩
        · simp at hp

theorem parse_day_name_range (s : String) (n : Int)
    (hp : parse_day_name s = some n) : 0 ≤ n ∧ n ≤ 6 := by
  simp only [parse_day_name, daysOfWeek, findDow] at hp
  split_ifs at hp <;> simp only [Option.some.injEq] at hp <;> omega

theorem parse_day_dow (d : Option (Sum Int String)) (n : Int)
    (hp : parse_day d = (some n, true)) : 0 ≤ n ∧ n ≤ 6 := by
  rcases d with _ | ⟨dn | ds⟩
  · simp [parse_day] at hp
  · simp only [parse_day] at hp
    split_ifs at hp <;> simp [Prod.ext_iff] at hp
  · simp only [parse_day] at hp
    rcases hi : pyInt? ds with _ | v <;> simp only [hi] at hp
    · rcases hn : parse_day_name ds with _ | dow <;> simp only [hn] at hp
      · simp [Prod.ext_iff] at hp
      · simp only [Prod.mk.injEq, Option.some.injEq] at hp
        obtain ⟨a, _⟩ := hp; subst a
        exact parse_day_name_range _ _ hn
    · split_ifs at hp <;> simp [Prod.ext_iff] at hp

theorem parse_day_num_range (d : Option (Sum Int String)) (n : Int)
    (hp : (parse_day d).1 = some n) (hb : (parse_day d).2 = false)
    (hne : n ≠ -1) : 1 ≤ n ∧ n ≤ 31 := by
  rcases d with _ | ⟨dn | ds⟩
  · simp [parse_day] at hp
  · simp only [parse_day] at hp
    split_ifs at hp with hr <;> simp only [Option.some.injEq] at hp <;> omega
  · simp only [parse_day] at hp hb
    rcases hi : pyInt? ds with _ | v <;> simp only [hi] at hp hb
    · rcases hn : parse_day_name ds with _ | dow <;> simp only [hn] at hp hb
      · simp at hp; omega
      · simp at hb
    · split_ifs at hp with hr <;> simp only [Option.some.injEq] at hp <;> omega

theorem lookupName_mem (l : List (String × Int)) (q : List Char) (v : Int)
    (h : lookupName l q = some v) : ∃ p ∈ l, p.2 = v := by
  induction l with
  | nil => simp [lookupName] at h
  | cons p rest ih =>
    simp only [lookupName] at h
    split_ifs at h with hc
    · simp only [Option.some.injEq] at h
      exact ⟨p, by simp, h⟩
    · obtain ⟨p', hmem, hv⟩ := ih h
      exact ⟨p', by simp [hmem], hv⟩

theorem parse_month_range (m : Sum Int String) (v : Int)
    (hp : parse_month m = some v) : 1 ≤ v ∧ v ≤ 12 := by
  rcases m with n | s
  · simp only [parse_month] at hp
    split_ifs at hp <;> simp only [Option.some.injEq] at hp <;> omega
  · simp only [parse_month] at hp
    rcases hi : pyInt? s with _ | w <;> simp only [hi] at hp
    · rcases hf : lookupName monthNames (pyLower s.toList) with _ | w <;> simp only [hf] at hp
      · obtain ⟨p, hmem, hv⟩ := lookupName_mem _ _ _ hp
        have : ∀ p ∈ monthAbbrs, 1 ≤ p.2 ∧ p.2 ≤ 12 := by decide
        have := this p hmem
        omega
      · simp only [Option.some.injEq] at hp
        subst hp
        obtain ⟨p, hmem, hv⟩ := lookupName_mem _ _ _ hf
        have : ∀ p ∈ monthNames, 1 ≤ p.2 ∧ p.2 ≤ 12 := by decide
        have := this p hmem
        omega
    · split_ifs at hp <;> simp only [Option.some.injEq] at hp <;> omega

/-! ### Month-search lemmas (_find_next_month_with_day) -/

theorem nextMonth_range (p : Int × Int) (h : 1 ≤ p.2 ∧ p.2 ≤ 12) :
    1 ≤ (nextMonth p).2 ∧ (nextMonth p).2 ≤ 12 := by
  unfold nextMonth
  split_ifs <;> dsimp only <;> omega

theorem advMonths_range (k : Nat) (p : Int × Int) (h : 1 ≤ p.2 ∧ p.2 ≤ 12) :
    1 ≤ (advMonths p k).2 ∧ (advMonths p k).2 ≤ 12 := by
  induction k generalizing p with
  | zero => exact h
  | succ k ih => exact ih _ (nextMonth_range p h)

theorem find_spec (d : Int) : ∀ (fuel : Nat) (y m : Int),
    (∃ k, k < fuel ∧ d ≤ days_in_month (advMonths (y, m) k).1 (advMonths (y, m) k).2) →
    ∃ k, k < fuel ∧
      find_next_month_with_day d y m fuel = advMonths (y, m) k ∧
      d ≤ days_in_month (advMonths (y, m) k).1 (advMonths (y, m) k).2 ∧
      ∀ j, j < k → days_in_month (advMonths (y, m) j).1 (advMonths (y, m) j).2 < d := by
  intro fuel
  induction fuel with
  | zero =>
    rintro y m ⟨k, hk, _⟩
    omega
  | succ fuel ih =>
    rintro y m ⟨k, hk, hdim⟩
    by_cases h0 : d ≤ days_in_month y m
    · refine ⟨0, by omega, ?_, ?_, ?_⟩
      · simp [find_next_month_with_day, h0, advMonths]
      · simpa [advMonths] using h0
      · intro j hj; omega
    · have hk0 : k ≠ 0 := by
        intro h; subst h
        simp only [advMonths] at hdim
        exact h0 hdim
      have hshift : ∀ j : Nat, advMonths (nextMonth (y, m)) j = advMonths (y, m) (j + 1) := by
        intro j; rfl
      obtain ⟨k', hk', hfind, hdim', hmin⟩ :=
        ih (nextMonth (y, m)).1 (nextMonth (y, m)).2
          ⟨k - 1, by omega, by
            rw [hshift]
            have : k - 1 + 1 = k := by omega
            rw [this]
            exact hdim⟩
      refine ⟨k' + 1, by omega, ?_, ?_, ?_⟩
      · have : find_next_month_with_day d y m (fuel + 1)
            = find_next_month_with_day d (nextMonth (y, m)).1 (nextMonth (y, m)).2 fuel := by
          simp [find_next_month_with_day, h0]
        rw [this, hfind, hshift]
      · rw [← hshift]
        exact hdim'
      · intro j hj
        rcases j with _ | j
        · simpa [advMonths] using by omega
        · rw [← hshift]
          exact hmin j (by omega)

theorem exists_month_within_12 (d y m : Int) (hd : d ≤ 31) (hm1 : 1 ≤ m) (hm2 : m ≤ 12) :
    ∃ k, k < 12 ∧ d ≤ days_in_month (advMonths (y, m) k).1 (advMonths (y, m) k).2 := by
  have jan : ∀ y' : Int, d ≤ days_in_month y' 1 := by
    intro y'; rw [days_in_month_jan]; omega
  interval_cases m
  · exact ⟨0, by norm_num, by simpa [advMonths] using jan y⟩
  · exact ⟨11, by norm_num, by norm_num [advMonths, nextMonth]; exact jan (y + 1)⟩
  · exact ⟨10, by norm_num, by norm_num [advMonths, nextMonth]; exact jan (y + 1)⟩
  · exact ⟨9, by norm_num, by norm_num [advMonths, nextMonth]; exact jan (y + 1)⟩
  · exact ⟨8, by norm_num, by norm_num [advMonths, nextMonth]; exact jan (y + 1)⟩
  · exact ⟨7, by norm_num, by norm_num [advMonths, nextMonth]; exact jan (y + 1)⟩
  · exact ⟨6, by norm_num, by norm_num [advMonths, nextMonth]; exact jan (y + 1)⟩
  · exact ⟨5, by norm_num, by norm_num [advMonths, nextMonth]; exact jan (y + 1)⟩
  · exact ⟨4, by norm_num, by norm_num [advMonths, nextMonth]; exact jan (y + 1)⟩
  · exact ⟨3, by norm_num, by norm_num [advMonths, nextMonth]; exact jan (y + 1)⟩
  · exact ⟨2, by norm_num, by norm_num [advMonths, nextMonth]; exact jan (y + 1)⟩
  · exact ⟨1, by norm_num, by norm_num [advMonths, nextMonth]; exact jan (y + 1)⟩

/-! ### Weekday lemmas (get_next_weekday) -/

theorem get_next_weekday_spec (c : Clock) (hv : c.Valid) (dow : Int)
    (hdow1 : 0 ≤ dow) (hdow2 : dow ≤ 6) :
    ∃ k : Nat, 1 ≤ k ∧ k ≤ 7 ∧ get_next_weekday c dow = addDays c.date k ∧
      (addDays c.date k).weekday = dow ∧
      (addDays c.date k).ordinal = c.date.ordinal + k ∧
      (dow = c.date.weekday → k = 7) := by
  obtain ⟨hdate, hyear⟩ := hv
  have hw0 : (0:Int) ≤ c.date.weekday := weekday_nonneg _
  have hw7 : c.date.weekday < 7 := weekday_lt _
  have hd00 : 0 ≤ (dow - c.date.weekday + 7) % 7 := Int.emod_nonneg _ (by norm_num)
  have hd07 : (dow - c.date.weekday + 7) % 7 < 7 := Int.emod_lt_of_pos _ (by norm_num)
  by_cases hz : (dow - c.date.weekday + 7) % 7 = 0
  · have heq : dow = c.date.weekday := by
      obtain ⟨t, ht⟩ := Int.dvd_of_emod_eq_zero hz
      omega
    refine ⟨7, by norm_num, by norm_num, ?_, ?_, ?_, fun _ => rfl⟩
    · simp only [get_next_weekday]
      rw [if_pos hz]
      rfl
    · rw [weekday_addDays _ hdate]
      push_cast
      rw [heq]
      have h71 : c.date.weekday + 7 = c.date.weekday + 7 * 1 := by ring
      rw [h71, Int.add_mul_emod_self_left]
      exact Int.emod_eq_of_lt (by omega) (by omega)
    · rw [addDays_ordinal _ hdate]
  · refine ⟨((dow - c.date.weekday + 7) % 7).toNat, by omega, by omega, ?_, ?_, ?_, ?_⟩
    · simp only [get_next_weekday]
      rw [if_neg hz]
    · rw [weekday_addDays _ hdate, Int.toNat_of_nonneg hd00, Int.add_emod_emod]
      have harr : c.date.weekday + (dow - c.date.weekday + 7) = dow + 7 * 1 := by ring
      rw [harr, Int.add_mul_emod_self_left]
      exact Int.emod_eq_of_lt (by omega) (by omega)
    · rw [addDays_ordinal _ hdate, Int.toNat_of_nonneg hd00]
    · intro heq
      exfalso
      apply hz
      rw [heq]
      have h77 : c.date.weekday - c.date.weekday + 7 = 7 := by ring
      rw [h77]
      norm_num

/-! ### The resolved time pair -/

theorem timeResolved_range (t : Option String) (h mi : Int)
    (ht : timeResolved t h mi) : (0 ≤ h ∧ h ≤ 23) ∧ (0 ≤ mi ∧ mi ≤ 59) := by
  rcases ht with h1 | ⟨_, h2, h3⟩
  · exact parse_time_range _ _ _ h1
  · subst h2; subst h3; norm_num

theorem clock_bounds (c : Clock) (hv : c.Valid) :
    1 ≤ c.year ∧ c.year ≤ 9998 ∧ 1 ≤ c.month ∧ c.month ≤ 12 ∧ 1 ≤ c.day ∧
      c.day ≤ days_in_month c.year c.month := by
  obtain ⟨hdv, hy⟩ := hv
  simp only [Clock.date, Date.Valid] at hdv
  exact ⟨hdv.1, hy, hdv.2.1, hdv.2.2.1, hdv.2.2.2.1, hdv.2.2.2.2⟩

/-! ### Claim theorems -/

/-- Characterization of parse on the branch where both month and a numeric
day are supplied (lines 232-250 of the source). -/
theorem parse_both_eq (tz : Timezone) (c : Clock) (year? : Option Int)
    (mtok : Sum Int String) (dtok : Option (Sum Int String)) (time : Option String)
    (pm pd h mi : Int)
    (hv : c.Valid)
    (hm : parse_month mtok = some pm)
    (hd : parse_day dtok = (some pd, false))
    (hpd : pd ≠ -1)
    (ht : timeResolved time h mi) :
    parse tz c year? (some mtok) dtok time =
      if days_in_month (year?.getD c.year) pm < pd then
        some (ParsedDateTime.mkInvalid (ErrMsg.invalidDate pm pd))
      else if year?.isSome then
        some (ParsedDateTime.mkValid (year?.getD c.year) pm pd h mi)
      else if naiveSec c.year pm pd h mi - tz.offsetAtLocal (naiveSec c.year pm pd h mi)
          ≤ c.utc then
        if days_in_month (c.year + 1) pm < pd then
          some (ParsedDateTime.mkInvalid (ErrMsg.invalidDateYear pm (c.year + 1) pd))
        else some (ParsedDateTime.mkValid (c.year + 1) pm pd h mi)
      else some (ParsedDateTime.mkValid c.year pm pd h mi) := by
  have hpm := parse_month_range _ _ hm
  have hpd31 := parse_day_num_range dtok pd (by rw [hd]) (by rw [hd]) hpd
  have htr := timeResolved_range _ _ _ ht
  have hcl := clock_bounds c hv
  have hmk : mkNaive c.year pm pd h mi =
      if pd ≤ days_in_month c.year pm then some (naiveSec c.year pm pd h mi) else none := by
    unfold mkNaive
    split_ifs with a b <;> first | rfl | omega
  rcases ht with hpt | ⟨hpt, h0, mi0⟩
  · rcases year? with _ | y
    · simp [parse, hpt, hd, hm, hpd, hmk]
      split_ifs <;> first | rfl | omega | simp [*]
    · simp [parse, hpt, hd, hm, hpd]
  · subst h0; subst mi0
    rcases year? with _ | y
    · simp [parse, hpt, hd, hm, hpd, hmk]
      split_ifs <;> first | rfl | omega | simp [*]
    · simp [parse, hpt, hd, hm, hpd]

/-- Characterization of parse when the time token matches no pattern
(lines 192-195). -/
theorem parse_time_invalid_eq (tz : Timezone) (c : Clock) (year? : Option Int)
    (month? : Option (Sum Int String)) (day? : Option (Sum Int String))
    (time : Option String)
    (hpt : parse_time time = TimeResult.invalid) :
    parse tz c year? month? day? time =
      some (ParsedDateTime.mkInvalid (ErrMsg.invalidTime time)) := by
  simp [parse, hpt]

/-- Characterization of parse when the day token is invalid
(lines 200-204). -/
theorem parse_day_invalid_eq (tz : Timezone) (c : Clock) (year? : Option Int)
    (month? : Option (Sum Int String)) (day? : Option (Sum Int String))
    (time : Option String) (h mi : Int)
    (ht : timeResolved time h mi)
    (hd : (parse_day day?).1 = some (-1)) :
    parse tz c year? month? day? time =
      some (ParsedDateTime.mkInvalid (ErrMsg.invalidDay day?)) := by
  rcases ht with hpt | ⟨hpt, h0, mi0⟩ <;> simp [parse, hpt, hd]

/-- Characterization of parse when day is not a weekday name and the month
token fails to resolve (lines 218-225). -/
theorem parse_month_invalid_eq (tz : Timezone) (c : Clock) (year? : Option Int)
    (mtok : Sum Int String) (day? : Option (Sum Int String))
    (time : Option String) (h mi : Int) (pd? : Option Int)
    (ht : timeResolved time h mi)
    (hd : parse_day day? = (pd?, false))
    (hne : pd? ≠ some (-1))
    (hm : parse_month mtok = none) :
    parse tz c year? (some mtok) day? time =
      some (ParsedDateTime.mkInvalid (ErrMsg.invalidMonth mtok)) := by
  rcases ht with hpt | ⟨hpt, h0, mi0⟩ <;> rcases pd? with _ | pd <;>
    simp [parse, hpt, hd, hm, hne]

/-- Characterization of parse on the weekday-name branch (lines 206-215):
month and year are ignored, the result is the next occurrence of the weekday
strictly after the clock date, at the resolved time. -/
theorem parse_weekday_eq (tz : Timezone) (c : Clock) (year? : Option Int)
    (month? : Option (Sum Int String)) (dtok : Option (Sum Int String))
    (time : Option String) (dow h mi : Int)
    (hv : c.Valid)
    (hd : parse_day dtok = (some dow, true))
    (ht : timeResolved time h mi) :
    ∃ k : Nat, 1 ≤ k ∧ k ≤ 7 ∧
      parse tz c year? month? dtok time =
        some (ParsedDateTime.mkValid (addDays c.date k).year (addDays c.date k).month
          (addDays c.date k).day h mi) ∧
      (addDays c.date k).weekday = dow ∧
      (addDays c.date k).ordinal = c.date.ordinal + k ∧
      (addDays c.date k).Valid ∧
      (dow = c.date.weekday → k = 7) := by
  have hdow := parse_day_dow _ _ hd
  obtain ⟨k, hk1, hk7, hgw, hwd, hord, hk7eq⟩ :=
    get_next_weekday_spec c hv dow hdow.1 hdow.2
  have hne : ¬ ((some dow : Option Int) = some (-1)) := by
    simp only [Option.some.injEq]
    omega
  refine ⟨k, hk1, hk7, ?_, hwd, hord, addDays_valid _ hv.1 k, hk7eq⟩
  rcases ht with hpt | ⟨hpt, h0, mi0⟩ <;>
    [skip; (subst h0; subst mi0)] <;>
  · simp [parse, hpt, hd, hne, hgw]

/-- Characterization of parse when only the month is supplied
(lines 252-256): the first of that month, with the year bumped when the
month is not in the strict future of the clock month and no explicit year
was given. -/
theorem parse_month_only_eq (tz : Timezone) (c : Clock) (year? : Option Int)
    (mtok : Sum Int String) (time : Option String) (pm h mi : Int)
    (hm : parse_month mtok = some pm)
    (ht : timeResolved time h mi) :
    parse tz c year? (some mtok) none time =
      some (ParsedDateTime.mkValid
        (if year?.isSome = false ∧ pm ≤ c.month then year?.getD c.year + 1
         else year?.getD c.year) pm 1 h mi) := by
  rcases ht with hpt | ⟨hpt, h0, mi0⟩ <;>
    [skip; (subst h0; subst mi0)] <;>
  · rcases year? with _ | y <;> simp [parse, parse_day, hpt, hm]

/-- Characterization of parse when only a numeric day is supplied
(lines 258-270): the result is the first month at or after the start
candidate whose day count covers the requested day, found within 12 months,
and the result is always valid. -/
theorem parse_day_only_eq (tz : Timezone) (c : Clock) (year? : Option Int)
    (dtok : Option (Sum Int String)) (time : Option String) (pd h mi : Int)
    (hv : c.Valid)
    (hd : parse_day dtok = (some pd, false))
    (hpd : pd ≠ -1)
    (ht : timeResolved time h mi) :
    ∃ k : Nat, k < 12 ∧
      parse tz c year? none dtok time =
        some (ParsedDateTime.mkValid (advMonths (startPair c pd) k).1
          (advMonths (startPair c pd) k).2 pd h mi) ∧
      pd ≤ days_in_month (advMonths (startPair c pd) k).1 (advMonths (startPair c pd) k).2 ∧
      (1 ≤ (advMonths (startPair c pd) k).2 ∧ (advMonths (startPair c pd) k).2 ≤ 12) ∧
      ∀ j, j < k →
        days_in_month (advMonths (startPair c pd) j).1 (advMonths (startPair c pd) j).2 < pd := by
  have hpd31 := parse_day_num_range dtok pd (by rw [hd]) (by rw [hd]) hpd
  have hcl := clock_bounds c hv
  have hsrange : 1 ≤ (startPair c pd).2 ∧ (startPair c pd).2 ≤ 12 := by
    unfold startPair
    split_ifs
    · exact nextMonth_range _ (by constructor <;> dsimp only <;> omega)
    · constructor <;> dsimp only <;> omega
  obtain ⟨k, hk, hfind, hdim, hmin⟩ := find_spec pd 12 (startPair c pd).1 (startPair c pd).2
    (exists_month_within_12 pd _ _ hpd31.2 hsrange.1 hsrange.2)
  have heta : ((startPair c pd).1, (startPair c pd).2) = startPair c pd := rfl
  rw [heta] at hfind hdim hmin
  refine ⟨k, hk, ?_, hdim, advMonths_range k _ hsrange, hmin⟩
  have hsp : (if pd ≤ c.day then nextMonth (c.year, c.month) else (c.year, c.month))
      = startPair c pd := rfl
  rcases ht with hpt | ⟨hpt, h0, mi0⟩ <;>
    [skip; (subst h0; subst mi0)] <;>
  · simp only [parse, hpt, hd]
    simp [hpd, hsp, hfind]

/-- Characterization of resolveTail (lines 283-299): with an absent time
argument the assembled date is returned as is; with a present time argument
(even one that parsed as "not specified") the date is replaced by the day
after the clock date exactly when the resolved local date-time is not
strictly after the clock, and the line-285 datetime construction raises
(none) when the year is outside 1..9999. -/
theorem resolveTail_eq (tz : Timezone) (c : Clock) (time : Option String)
    (h mi py pm pd : Int)
    (hb : 1 ≤ pm ∧ pm ≤ 12 ∧ 1 ≤ pd ∧ pd ≤ days_in_month py pm)
    (hhb : 0 ≤ h ∧ h ≤ 23) (hmb : 0 ≤ mi ∧ mi ≤ 59) :
    resolveTail tz c time h mi py pm pd =
      if time = none then some (ParsedDateTime.mkValid py pm pd h mi)
      else if ¬ (1 ≤ py ∧ py ≤ 9999) then none
      else if naiveSec py pm pd h mi - tz.offsetAtLocal (naiveSec py pm pd h mi) ≤ c.utc then
        some (ParsedDateTime.mkValid (addDays c.date 1).year (addDays c.date 1).month
          (addDays c.date 1).day h mi)
      else some (ParsedDateTime.mkValid py pm pd h mi) := by
  rcases time with _ | s
  · rfl
  · have hmk : mkNaive py pm pd h mi =
        if 1 ≤ py ∧ py ≤ 9999 then some (naiveSec py pm pd h mi) else none := by
      unfold mkNaive
      split_ifs with a b <;> first | rfl | omega
    simp only [resolveTail, hmk]
    split_ifs <;> first | rfl | contradiction | omega | simp [*]

/-- Parse reduces to resolveTail when only a year is supplied
(lines 272-275 then 283-299). -/
theorem parse_year_only_eq (tz : Timezone) (c : Clock) (y : Int)
    (time : Option String) (h mi : Int)
    (ht : timeResolved time h mi) :
    parse tz c (some y) none none time = resolveTail tz c time h mi y 1 1 := by
  rcases ht with hpt | ⟨hpt, h0, mi0⟩ <;>
    [skip; (subst h0; subst mi0)] <;>
  · simp [parse, parse_day, hpt]

/-- Parse reduces to resolveTail on the clock date when nothing but the time
is supplied (lines 277-281 then 283-299). -/
theorem parse_nothing_eq (tz : Timezone) (c : Clock)
    (time : Option String) (h mi : Int)
    (ht : timeResolved time h mi) :
    parse tz c none none none time = resolveTail tz c time h mi c.year c.month c.day := by
  rcases ht with hpt | ⟨hpt, h0, mi0⟩ <;>
    [skip; (subst h0; subst mi0)] <;>
  · simp [parse, parse_day, hpt]

/-- A present day token always produces a present first component. -/
theorem parse_day_some_fst (x : Sum Int String) : ((parse_day (some x)).1).isSome = true := by
  rcases x with n | s
  · simp only [parse_day]
    split_ifs <;> rfl
  · simp only [parse_day]
    rcases hi : pyInt? s with _ | v
    · rcases hn : parse_day_name s with _ | dow <;> simp [hi, hn]
    · simp only [hi]
      split_ifs <;> rfl

/-- C1: for every input (year, month, day, time) and every clock reading, a
result of parse whose validity flag is true satisfies 1 ≤ month ≤ 12,
1 ≤ day ≤ days-in-month(year, month) (respecting leap years),
0 ≤ hour ≤ 23 and 0 ≤ minute ≤ 59: every valid result is a real calendar
date and a real time-of-day. -/
theorem C1_valid_ranges (tz : Timezone) (c : Clock) (year? : Option Int)
    (month? : Option (Sum Int String)) (day? : Option (Sum Int String))
    (time : Option String) (r : ParsedDateTime)
    (hv : c.Valid)
    (hp : parse tz c year? month? day? time = some r)
    (hval : r.is_valid = true) :
    (1 ≤ r.month ∧ r.month ≤ 12) ∧
      (1 ≤ r.day ∧ r.day ≤ days_in_month r.year r.month) ∧
      (0 ≤ r.hour ∧ r.hour ≤ 23) ∧ (0 ≤ r.minute ∧ r.minute ≤ 59) := by
  have hcl := clock_bounds c hv
  have key : ∀ h mi : Int, timeResolved time h mi →
      (1 ≤ r.month ∧ r.month ≤ 12) ∧
        (1 ≤ r.day ∧ r.day ≤ days_in_month r.year r.month) ∧
        (0 ≤ r.hour ∧ r.hour ≤ 23) ∧ (0 ≤ r.minute ∧ r.minute ≤ 59) := by
    intro h mi ht
    have htr := timeResolved_range _ _ _ ht
    rcases day? with _ | dtok
    · rcases month? with _ | mtok
      · -- neither month nor day: year-only or nothing, then the tail
        rcases year? with _ | y
        · rw [parse_nothing_eq tz c time h mi ht,
            resolveTail_eq tz c time h mi c.year c.month c.day
              ⟨hcl.2.2.1, hcl.2.2.2.1, hcl.2.2.2.2.1, hcl.2.2.2.2.2⟩ htr.1 htr.2] at hp
          have htom := addDays_valid c.date hv.1 1
          obtain ⟨ta, tb, tc, td, te⟩ := htom
          split_ifs at hp <;>
            (simp only [Option.some.injEq] at hp; subst hp;
             simp only [ParsedDateTime.mkValid]) <;>
            refine ⟨⟨?_, ?_⟩, ⟨?_, ?_⟩, ⟨?_, ?_⟩, ⟨?_, ?_⟩⟩ <;> omega
        · rw [parse_year_only_eq tz c y time h mi ht,
            resolveTail_eq tz c time h mi y 1 1
              ⟨by omega, by omega, by omega, by rw [days_in_month_jan]; omega⟩
              htr.1 htr.2] at hp
          have htom := addDays_valid c.date hv.1 1
          obtain ⟨ta, tb, tc, td, te⟩ := htom
          have hjy := days_in_month_jan y
          split_ifs at hp <;>
            (simp only [Option.some.injEq] at hp; subst hp;
             simp only [ParsedDateTime.mkValid]) <;>
            refine ⟨⟨?_, ?_⟩, ⟨?_, ?_⟩, ⟨?_, ?_⟩, ⟨?_, ?_⟩⟩ <;> omega
      · -- month present, day absent
        rcases hmq : parse_month mtok with _ | pm
        · rw [parse_month_invalid_eq tz c year? mtok none time h mi none ht rfl
            (by simp) hmq] at hp
          simp only [Option.some.injEq] at hp
          subst hp
          simp [ParsedDateTime.mkInvalid] at hval
        · have hpm := parse_month_range _ _ hmq
          rw [parse_month_only_eq tz c year? mtok time pm h mi hmq ht] at hp
          simp only [Option.some.injEq] at hp
          subst hp
          simp only [ParsedDateTime.mkValid]
          have h28a := days_in_month_ge (year?.getD c.year + 1) pm (by omega) (by omega)
          have h28b := days_in_month_ge (year?.getD c.year) pm (by omega) (by omega)
          split_ifs <;> refine ⟨⟨?_, ?_⟩, ⟨?_, ?_⟩, ⟨?_, ?_⟩, ⟨?_, ?_⟩⟩ <;> omega
    · -- day present
      rcases hdq : parse_day (some dtok) with ⟨pd?, flag⟩
      have hsome := parse_day_some_fst dtok
      rw [hdq] at hsome
      rcases pd? with _ | pd
      · simp at hsome
      · by_cases hneg : pd = -1
        · subst hneg
          rw [parse_day_invalid_eq tz c year? month? (some dtok) time h mi ht
            (by rw [hdq])] at hp
          simp only [Option.some.injEq] at hp
          subst hp
          simp [ParsedDateTime.mkInvalid] at hval
        · rcases flag with _ | _
          · -- numeric day
            have hpd31 := parse_day_num_range (some dtok) pd (by rw [hdq]) (by rw [hdq]) hneg
            rcases month? with _ | mtok
            · obtain ⟨k, hk, heq, hdim, hmr, hmin⟩ :=
                parse_day_only_eq tz c year? (some dtok) time pd h mi hv hdq hneg ht
              rw [heq] at hp
              simp only [Option.some.injEq] at hp
              subst hp
              simp only [ParsedDateTime.mkValid]
              refine ⟨⟨?_, ?_⟩, ⟨?_, ?_⟩, ⟨?_, ?_⟩, ⟨?_, ?_⟩⟩ <;> omega
            · rcases hmq : parse_month mtok with _ | pm
              · rw [parse_month_invalid_eq tz c year? mtok (some dtok) time h mi
                  (some pd) ht hdq (by simpa using hneg) hmq] at hp
                simp only [Option.some.injEq] at hp
                subst hp
                simp [ParsedDateTime.mkInvalid] at hval
              · have hpm := parse_month_range _ _ hmq
                rcases year? with _ | y
                · rw [parse_both_eq tz c none mtok (some dtok) time pm pd h mi hv hmq hdq
                    hneg ht] at hp
                  simp only [Option.getD_none, Option.isSome_none] at hp
                  split_ifs at hp <;>
                    (simp only [Option.some.injEq] at hp; subst hp) <;>
                    first
                    | simp [ParsedDateTime.mkInvalid] at hval
                    | (simp only [ParsedDateTime.mkValid]; refine ⟨⟨?_, ?_⟩, ⟨?_, ?_⟩, ⟨?_, ?_⟩, ⟨?_, ?_⟩⟩ <;> omega)
                · rw [parse_both_eq tz c (some y) mtok (some dtok) time pm pd h mi hv hmq hdq
                    hneg ht] at hp
                  simp only [Option.getD_some, Option.isSome_some] at hp
                  split_ifs at hp <;>
                    (simp only [Option.some.injEq] at hp; subst hp) <;>
                    first
                    | simp [ParsedDateTime.mkInvalid] at hval
                    | (simp only [ParsedDateTime.mkValid]; refine ⟨⟨?_, ?_⟩, ⟨?_, ?_⟩, ⟨?_, ?_⟩, ⟨?_, ?_⟩⟩ <;> omega)
          · -- weekday name
            obtain ⟨k, hk1, hk7, heq, hwd, hord, hvalid, hk7eq⟩ :=
              parse_weekday_eq tz c year? month? (some dtok) time pd h mi hv hdq ht
            rw [heq] at hp
            simp only [Option.some.injEq] at hp
            subst hp
            obtain ⟨ta, tb, tc, td, te⟩ := hvalid
            simp only [ParsedDateTime.mkValid]
            refine ⟨⟨?_, ?_⟩, ⟨?_, ?_⟩, ⟨?_, ?_⟩, ⟨?_, ?_⟩⟩ <;> omega
  rcases htq : parse_time time with _ | _ | ⟨hh, mm⟩
  · exact key 0 0 (Or.inr ⟨htq, rfl, rfl⟩)
  · rw [parse_time_invalid_eq tz c year? month? day? time htq] at hp
    simp only [Option.some.injEq] at hp
    subst hp
    simp [ParsedDateTime.mkInvalid] at hval
  · exact key hh mm (Or.inl htq)

/-- C2: for every clock reading and day input parsing as a weekday name,
parse ignores any supplied month and year and returns a valid result whose
date is the next occurrence of that weekday strictly after the clock date —
never today, and exactly seven days later when the requested weekday equals
the clock weekday — with hour and minute from the parsed time or 0/0. -/
theorem C2_weekday_next_occurrence (tz : Timezone) (c : Clock) (year? : Option Int)
    (month? : Option (Sum Int String)) (dtok : Option (Sum Int String))
    (time : Option String) (dow h mi : Int)
    (hv : c.Valid)
    (hd : parse_day dtok = (some dow, true))
    (ht : timeResolved time h mi) :
    (parse tz c year? month? dtok time = parse tz c none none dtok time) ∧
    ∃ k : Nat, 1 ≤ k ∧ k ≤ 7 ∧
      parse tz c year? month? dtok time =
        some (ParsedDateTime.mkValid (addDays c.date k).year (addDays c.date k).month
          (addDays c.date k).day h mi) ∧
      (addDays c.date k).Valid ∧
      (addDays c.date k).weekday = dow ∧
      c.date.ordinal < (addDays c.date k).ordinal ∧
      (addDays c.date k).ordinal ≤ c.date.ordinal + 7 ∧
      (dow = c.date.weekday → (addDays c.date k).ordinal = c.date.ordinal + 7) := by
  have hne : ¬ ((some dow : Option Int) = some (-1)) := by
    have := parse_day_dow _ _ hd
    simp only [Option.some.injEq]
    omega
  have hig : parse tz c year? month? dtok time = parse tz c none none dtok time := by
    rcases ht with hpt | ⟨hpt, h0, mi0⟩ <;> simp [parse, hpt, hd, hne]
  obtain ⟨k, hk1, hk7, heq, hwd, hord, hvd, h7⟩ :=
    parse_weekday_eq tz c year? month? dtok time dow h mi hv hd ht
  refine ⟨hig, k, hk1, hk7, heq, hvd, hwd, ?_, ?_, ?_⟩
  · rw [hord]; omega
  · rw [hord]; omega
  · intro hsame
    rw [hord, h7 hsame]
    norm_num

/-- Witness for C2 at the spec scenario: clock 2024-01-10 (a Wednesday),
day "Monday", time "10am" resolves to 2024-01-15 10:00. -/
theorem C2_witness :
    cJan.Valid ∧ parse_day (some (Sum.inr "Monday")) = (some 0, true) ∧
      timeResolved (some "10am") 10 0 ∧
      ((parse utcTz cJan none none (some (Sum.inr "Monday")) (some "10am") =
          parse utcTz cJan none none (some (Sum.inr "Monday")) (some "10am")) ∧
        ∃ k : Nat, 1 ≤ k ∧ k ≤ 7 ∧
          parse utcTz cJan none none (some (Sum.inr "Monday")) (some "10am") =
            some (ParsedDateTime.mkValid (addDays cJan.date k).year (addDays cJan.date k).month
              (addDays cJan.date k).day 10 0) ∧
          (addDays cJan.date k).Valid ∧
          (addDays cJan.date k).weekday = 0 ∧
          cJan.date.ordinal < (addDays cJan.date k).ordinal ∧
          (addDays cJan.date k).ordinal ≤ cJan.date.ordinal + 7 ∧
          ((0:Int) = cJan.date.weekday → (addDays cJan.date k).ordinal = cJan.date.ordinal + 7)) :=
  ⟨by decide, by decide, by decide,
    C2_weekday_next_occurrence utcTz cJan none none (some (Sum.inr "Monday")) (some "10am")
      0 10 0 (by decide) (by decide) (by decide)⟩

/-- C3: when both month and a numeric day are supplied, parse fails with an
invalid-date message naming the month and the day count when the day exceeds
days-in-month(resolved year, month); with no explicit year, if the resolved
local date-time is not strictly after now the year is bumped by exactly one
and the day count re-validated once against the bumped year (failing if a
day 29 lands in a non-leap February, never searching further years); with an
explicit year the combination is taken literally, with no bump, even if it
lies in the past. -/
theorem C3_month_day_given (tz : Timezone) (c : Clock) (year? : Option Int)
    (mtok : Sum Int String) (dtok : Option (Sum Int String)) (time : Option String)
    (pm pd h mi : Int)
    (hv : c.Valid)
    (hm : parse_month mtok = some pm)
    (hd : parse_day dtok = (some pd, false))
    (hpd : pd ≠ -1)
    (ht : timeResolved time h mi) :
    parse tz c year? (some mtok) dtok time =
      if days_in_month (year?.getD c.year) pm < pd then
        some (ParsedDateTime.mkInvalid (ErrMsg.invalidDate pm pd))
      else if year?.isSome then
        some (ParsedDateTime.mkValid (year?.getD c.year) pm pd h mi)
      else if naiveSec c.year pm pd h mi - tz.offsetAtLocal (naiveSec c.year pm pd h mi)
          ≤ c.utc then
        if days_in_month (c.year + 1) pm < pd then
          some (ParsedDateTime.mkInvalid (ErrMsg.invalidDateYear pm (c.year + 1) pd))
        else some (ParsedDateTime.mkValid (c.year + 1) pm pd h mi)
      else some (ParsedDateTime.mkValid c.year pm pd h mi) :=
  parse_both_eq tz c year? mtok dtok time pm pd h mi hv hm hd hpd ht

/-- Witness for C3 at the spec scenario: clock 2024-02-01 (a leap year),
request year 2023, month "February", day "29" is rejected as an invalid
date naming February and 29, even though the current year is a leap year. -/
theorem C3_witness :
    cFeb.Valid ∧ parse_month (Sum.inr "February") = some 2 ∧
      parse_day (some (Sum.inr "29")) = (some 29, false) ∧ ((29:Int) ≠ -1) ∧
      timeResolved none 0 0 ∧
      parse utcTz cFeb (some 2023) (some (Sum.inr "February")) (some (Sum.inr "29")) none =
        some (ParsedDateTime.mkInvalid (ErrMsg.invalidDate 2 29)) :=
  ⟨by decide, by decide, by decide, by decide, by decide,
    (C3_month_day_given utcTz cFeb (some 2023) (Sum.inr "February") (some (Sum.inr "29"))
        none 2 29 0 0 (by decide) (by decide) (by decide) (by decide) (by decide)).trans
      (by decide)⟩

/-- C4: when a numeric day 1-31 is supplied and month omitted, parse
searches forward from the first candidate month (the clock month when
day > now.day, otherwise the next month with year wrap) and returns the
first (year, month) at or after that candidate whose day count covers the
requested day; the search always succeeds within at most 12 months, so this
branch never returns an invalid result. -/
theorem C4_day_only_search (tz : Timezone) (c : Clock) (year? : Option Int)
    (dtok : Option (Sum Int String)) (time : Option String) (pd h mi : Int)
    (hv : c.Valid)
    (hd : parse_day dtok = (some pd, false))
    (hpd : pd ≠ -1)
    (ht : timeResolved time h mi) :
    ∃ k : Nat, k < 12 ∧
      parse tz c year? none dtok time =
        some (ParsedDateTime.mkValid (advMonths (startPair c pd) k).1
          (advMonths (startPair c pd) k).2 pd h mi) ∧
      pd ≤ days_in_month (advMonths (startPair c pd) k).1 (advMonths (startPair c pd) k).2 ∧
      (1 ≤ (advMonths (startPair c pd) k).2 ∧ (advMonths (startPair c pd) k).2 ≤ 12) ∧
      ∀ j, j < k →
        days_in_month (advMonths (startPair c pd) j).1 (advMonths (startPair c pd) j).2 < pd :=
  parse_day_only_eq tz c year? dtok time pd h mi hv hd hpd ht

/-- Witness for C4: clock 2024-01-10, day 31 alone resolves within the
current month (January has 31 days), i.e. the search succeeds at step 0. -/
theorem C4_witness :
    cJan.Valid ∧ parse_day (some (Sum.inl 31)) = (some 31, false) ∧ ((31:Int) ≠ -1) ∧
      timeResolved none 0 0 ∧
      ∃ k : Nat, k < 12 ∧
        parse utcTz cJan none none (some (Sum.inl 31)) none =
          some (ParsedDateTime.mkValid (advMonths (startPair cJan 31) k).1
            (advMonths (startPair cJan 31) k).2 31 0 0) ∧
        31 ≤ days_in_month (advMonths (startPair cJan 31) k).1
          (advMonths (startPair cJan 31) k).2 ∧
        (1 ≤ (advMonths (startPair cJan 31) k).2 ∧ (advMonths (startPair cJan 31) k).2 ≤ 12) ∧
        ∀ j, j < k → days_in_month (advMonths (startPair cJan 31) j).1
          (advMonths (startPair cJan 31) j).2 < 31 :=
  ⟨by decide, by decide, by decide, by decide,
    C4_day_only_search utcTz cJan none (some (Sum.inl 31)) none 31 0 0
      (by decide) (by decide) (by decide) (by decide)⟩

/-- C5 (amended): the roll-forward-by-one-day adjustment at the end of
resolution is applied exactly when month and day are both not specified and
a time argument was passed and the resolved local date-time is not strictly
after now — regardless of whether an explicit year was supplied.  In
particular, an explicit year together with a time whose resolved January 1st
is not strictly after now is replaced by the day after the clock date. -/
theorem C5_time_only_roll (tz : Timezone) (c : Clock) (time : Option String)
    (h mi : Int)
    (hv : c.Valid)
    (ht : timeResolved time h mi) :
    (∀ y : Int, 1 ≤ y → y ≤ 9999 →
      parse tz c (some y) none none time =
        if time = none then some (ParsedDateTime.mkValid y 1 1 h mi)
        else if naiveSec y 1 1 h mi - tz.offsetAtLocal (naiveSec y 1 1 h mi) ≤ c.utc then
          some (ParsedDateTime.mkValid (addDays c.date 1).year (addDays c.date 1).month
            (addDays c.date 1).day h mi)
        else some (ParsedDateTime.mkValid y 1 1 h mi)) ∧
    (parse tz c none none none time =
      if time = none then some (ParsedDateTime.mkValid c.year c.month c.day h mi)
      else if naiveSec c.year c.month c.day h mi
          - tz.offsetAtLocal (naiveSec c.year c.month c.day h mi) ≤ c.utc then
        some (ParsedDateTime.mkValid (addDays c.date 1).year (addDays c.date 1).month
          (addDays c.date 1).day h mi)
      else some (ParsedDateTime.mkValid c.year c.month c.day h mi)) := by
  have htr := timeResolved_range _ _ _ ht
  have hcl := clock_bounds c hv
  constructor
  · intro y hy1 hy2
    rw [parse_year_only_eq tz c y time h mi ht,
      resolveTail_eq tz c time h mi y 1 1
        ⟨by omega, by omega, by omega, by rw [days_in_month_jan]; omega⟩ htr.1 htr.2]
    split_ifs <;> first | rfl | omega
  · rw [parse_nothing_eq tz c time h mi ht,
      resolveTail_eq tz c time h mi c.year c.month c.day
        ⟨hcl.2.2.1, hcl.2.2.2.1, hcl.2.2.2.2.1, hcl.2.2.2.2.2⟩ htr.1 htr.2]
    split_ifs <;> first | rfl | omega

/-- C5 counterexample: with clock 2024-01-10 12:00 UTC, an explicit past
year 2020 supplied together with only a time is NOT kept as January 1st of
that year: the result is rolled to the day after the clock date,
2024-01-11 15:00 instead of 2020-01-01 15:00. -/
theorem C5_counterexample :
    parse utcTz cJan (some 2020) none none (some "3pm") =
      some (ParsedDateTime.mkValid 2024 1 11 15 0) ∧
    parse utcTz cJan (some 2020) none none (some "3pm") ≠
      some (ParsedDateTime.mkValid 2020 1 1 15 0) := by
  constructor <;> decide

/-- Witness for the amended C5: at the same concrete input the amended
characterization evaluates to the rolled-forward result. -/
theorem C5_witness :
    cJan.Valid ∧ timeResolved (some "3pm") 15 0 ∧ ((1:Int) ≤ 2020) ∧ ((2020:Int) ≤ 9999) ∧
      parse utcTz cJan (some 2020) none none (some "3pm") =
        some (ParsedDateTime.mkValid 2024 1 11 15 0) :=
  ⟨by decide, by decide, by decide, by decide,
    ((C5_time_only_roll utcTz cJan (some "3pm") 15 0 (by decide) (by decide)).1 2020
      (by decide) (by decide)).trans (by decide)⟩

/-- C6 (amended): parse is total — it returns a ParsedDateTime and never
raises — for every well-typed input whose explicit year, when one is
supplied with month and day both absent and a time argument present, lies
in the datetime-representable range 1..9999 (outside that range the
datetime construction of the final adjustment raises, see the
counterexample); and every malformed component is reported through the
validity flag and a structured message naming that component, never
silently replaced by a default. -/
theorem C6_total_and_reporting (tz : Timezone) (c : Clock) (year? : Option Int)
    (month? : Option (Sum Int String)) (day? : Option (Sum Int String))
    (time : Option String)
    (hv : c.Valid)
    (hy : ∀ y, year? = some y → month?.isSome = true ∨ day?.isSome = true ∨ time = none ∨
      (1 ≤ y ∧ y ≤ 9999)) :
    (parse tz c year? month? day? time).isSome = true ∧
    (parse_time time = TimeResult.invalid →
      parse tz c year? month? day? time =
        some (ParsedDateTime.mkInvalid (ErrMsg.invalidTime time))) ∧
    (∀ h mi, timeResolved time h mi → (parse_day day?).1 = some (-1) →
      parse tz c year? month? day? time =
        some (ParsedDateTime.mkInvalid (ErrMsg.invalidDay day?))) ∧
    (∀ h mi pd? mtok, timeResolved time h mi → month? = some mtok →
      parse_day day? = (pd?, false) → pd? ≠ some (-1) → parse_month mtok = none →
      parse tz c year? month? day? time =
        some (ParsedDateTime.mkInvalid (ErrMsg.invalidMonth mtok))) := by
  have hcl := clock_bounds c hv
  refine ⟨?_, fun hpt => parse_time_invalid_eq tz c year? month? day? time hpt,
    fun h mi ht hd => parse_day_invalid_eq tz c year? month? day? time h mi ht hd,
    fun h mi pd? mtok ht hmeq hd hne hm => by
      subst hmeq
      exact parse_month_invalid_eq tz c year? mtok day? time h mi pd? ht hd hne hm⟩
  have key : ∀ h mi : Int, timeResolved time h mi →
      (parse tz c year? month? day? time).isSome = true := by
    intro h mi ht
    have htr := timeResolved_range _ _ _ ht
    rcases day? with _ | dtok
    · rcases month? with _ | mtok
      · rcases year? with _ | y
        · rw [parse_nothing_eq tz c time h mi ht,
            resolveTail_eq tz c time h mi c.year c.month c.day
              ⟨hcl.2.2.1, hcl.2.2.2.1, hcl.2.2.2.2.1, hcl.2.2.2.2.2⟩ htr.1 htr.2]
          split_ifs <;> first | rfl | omega
        · have hy9 : 1 ≤ y ∧ y ≤ 9999 ∨ time = none := by
            rcases hy y rfl with hc | hc | hc | hc
            · simp at hc
            · simp at hc
            · exact Or.inr hc
            · exact Or.inl hc
          rw [parse_year_only_eq tz c y time h mi ht,
            resolveTail_eq tz c time h mi y 1 1
              ⟨by omega, by omega, by omega, by rw [days_in_month_jan]; omega⟩ htr.1 htr.2]
          rcases hy9 with hc | hc
          · split_ifs <;> first | rfl | omega
          · subst hc
            split_ifs <;> first | rfl | contradiction | omega
      · rcases hmq : parse_month mtok with _ | pm
        · rw [parse_month_invalid_eq tz c year? mtok none time h mi none ht rfl
            (by simp) hmq]
          rfl
        · rw [parse_month_only_eq tz c year? mtok time pm h mi hmq ht]
          rfl
    · rcases hdq : parse_day (some dtok) with ⟨pd?, flag⟩
      have hsome := parse_day_some_fst dtok
      rw [hdq] at hsome
      rcases pd? with _ | pd
      · simp at hsome
      · by_cases hneg : pd = -1
        · subst hneg
          rw [parse_day_invalid_eq tz c year? month? (some dtok) time h mi ht (by rw [hdq])]
          rfl
        · rcases flag with _ | _
          · rcases month? with _ | mtok
            · obtain ⟨k, _, heq, _, _, _⟩ :=
                parse_day_only_eq tz c year? (some dtok) time pd h mi hv hdq hneg ht
              rw [heq]
              rfl
            · rcases hmq : parse_month mtok with _ | pm
              · rw [parse_month_invalid_eq tz c year? mtok (some dtok) time h mi
                  (some pd) ht hdq (by simpa using hneg) hmq]
                rfl
              · rw [parse_both_eq tz c year? mtok (some dtok) time pm pd h mi hv hmq hdq
                  hneg ht]
                split_ifs <;> rfl
          · obtain ⟨k, _, _, heq, _, _, _, _⟩ :=
              parse_weekday_eq tz c year? month? (some dtok) time pd h mi hv hdq ht
            rw [heq]
            rfl
  rcases htq : parse_time time with _ | _ | ⟨hh, mm⟩
  · exact key 0 0 (Or.inr ⟨htq, rfl, rfl⟩)
  · rw [parse_time_invalid_eq tz c year? month? day? time htq]
    rfl
  · exact key hh mm (Or.inl htq)

/-- C6 counterexample: an explicit year 0 with only a time makes the
line-285 datetime construction raise ValueError, so parse does not return a
ParsedDateTime (modelled as none). -/
theorem C6_counterexample :
    parse utcTz cJan (some 0) none none (some "10am") = none := by decide

/-- Witness for the amended C6 at a concrete in-range input. -/
theorem C6_witness :
    cJan.Valid ∧
    (parse utcTz cJan (some 2024) none none none).isSome = true :=
  ⟨by decide,
    (C6_total_and_reporting utcTz cJan (some 2024) none none none (by decide)
      (fun y _ => Or.inr (Or.inr (Or.inl rfl)))).1⟩

/-- C7 (amended): for a time token carrying an am/pm meridiem the regex
delivers an hour 0..23 and _adjust_12h rejects exactly the hours above 12 —
hour 0 is accepted rather than rejected.  For accepted hours, 12am maps to
0, 12pm maps to 12, any other pm hour has 12 added and any other am hour is
left unchanged (so 0am maps to 0 and 0pm to 12); matching is
case-insensitive. -/
theorem C7_meridiem_adjustment (h mi : Int) (hh : 0 ≤ h ∧ h ≤ 23) :
    (12 < h → adjust_12h h mi true = TimeResult.invalid ∧
      adjust_12h h mi false = TimeResult.invalid) ∧
    (h ≤ 12 →
      adjust_12h h mi true = TimeResult.time (if h = 12 then 12 else h + 12) mi ∧
      adjust_12h h mi false = TimeResult.time (if h = 12 then 0 else h) mi) ∧
    parse_time (some "12AM") = TimeResult.time 0 0 ∧
    parse_time (some "12pm") = TimeResult.time 12 0 ∧
    parse_time (some "0am") = TimeResult.time 0 0 ∧
    parse_time (some "0Pm") = TimeResult.time 12 0 := by
  refine ⟨?_, ?_, by decide, by decide, by decide, by decide⟩
  · intro hgt
    constructor <;>
      (unfold adjust_12h; split_ifs <;> first | rfl | omega | simp_all)
  · intro hle
    constructor <;>
      (unfold adjust_12h; split_ifs <;> first | rfl | omega | simp_all)

/-- C7 counterexample: the time token 0am carries a meridiem and an hour
outside 1..12, yet the resolver accepts it (as midnight) instead of
failing. -/
theorem C7_counterexample :
    parse_time (some "0am") = TimeResult.time 0 0 ∧
    parse_time (some "0am") ≠ TimeResult.invalid ∧
    ¬ (1 ≤ (0:Int)) := by decide

/-- Witness for the amended C7: hour 15 with a meridiem is rejected. -/
theorem C7_witness :
    ((0:Int) ≤ 15 ∧ (15:Int) ≤ 23) ∧ ((12:Int) < 15) ∧
      (adjust_12h 15 0 true = TimeResult.invalid ∧
        adjust_12h 15 0 false = TimeResult.invalid) :=
  ⟨by decide, by decide, (C7_meridiem_adjustment 15 0 (by decide)).1 (by decide)⟩

/-- C8 (amended): for a fully explicit request that parse accepts as valid,
whenever the offset chosen at localization equals the offset in force at
the produced UTC instant — true in particular for every fixed-offset
timezone, and exactly the condition that fails inside a DST spring-forward
gap — converting to a UTC Unix timestamp and localizing that instant back
reproduces the resolved (year, month, day, hour, minute) tuple, compared
via the injective naive-instant encoding. -/
theorem C8_roundtrip (tz : Timezone) (c : Clock) (y : Int)
    (mtok : Sum Int String) (dtok : Option (Sum Int String)) (time : Option String)
    (r : ParsedDateTime) (ts : Int)
    (hp : parse tz c (some y) (some mtok) dtok time = some r)
    (hr : r.is_valid = true)
    (hts : to_utc_timestamp tz r = some ts)
    (hoff : tz.offsetAtUtc (ts + epochSec) =
      tz.offsetAtLocal (naiveSec r.year r.month r.day r.hour r.minute)) :
    utcToLocalNaive tz ts = naiveSec r.year r.month r.day r.hour r.minute := by
  unfold to_utc_timestamp at hts
  rw [hr] at hts
  simp only [Bool.true_eq_false, if_false] at hts
  rcases hmk : mkNaive r.year r.month r.day r.hour r.minute with _ | n
  · rw [hmk] at hts
    exact absurd hts (by simp)
  · rw [hmk] at hts
    simp only [Option.some.injEq] at hts
    have hn : n = naiveSec r.year r.month r.day r.hour r.minute := by
      unfold mkNaive at hmk
      split_ifs at hmk
      simp only [Option.some.injEq] at hmk
      omega
    subst hn
    unfold utcToLocalNaive
    rw [hoff]
    omega

/-- C8 counterexample: in America/New_York (2024 rules), the fully explicit
request 2024-03-10 2:30 lies in the spring-forward gap: parse accepts it,
pytz localizes it at the standard offset, and localizing the resulting UTC
instant back yields 03:30 EDT — the round trip does not reproduce the
resolved tuple. -/
theorem C8_counterexample :
    parse nyTz cJan (some 2024) (some (Sum.inl 3)) (some (Sum.inl 10)) (some "2:30") =
      some (ParsedDateTime.mkValid 2024 3 10 2 30) ∧
    to_utc_timestamp nyTz (ParsedDateTime.mkValid 2024 3 10 2 30) =
      some (naiveSec 2024 3 10 2 30 + 18000 - epochSec) ∧
    utcToLocalNaive nyTz (naiveSec 2024 3 10 2 30 + 18000 - epochSec) =
      naiveSec 2024 3 10 3 30 ∧
    naiveSec 2024 3 10 3 30 ≠ naiveSec 2024 3 10 2 30 := by
  refine ⟨by decide, by decide, by decide, by decide⟩

/-- Witness for the amended C8: the spec timestamp scenario in a fixed
offset zone: 2024-01-01 00:00 UTC round-trips exactly. -/
theorem C8_witness :
    parse utcTz cJan (some 2024) (some (Sum.inl 1)) (some (Sum.inl 1)) (some "00:00") =
      some (ParsedDateTime.mkValid 2024 1 1 0 0) ∧
    (ParsedDateTime.mkValid 2024 1 1 0 0).is_valid = true ∧
    to_utc_timestamp utcTz (ParsedDateTime.mkValid 2024 1 1 0 0) =
      some (naiveSec 2024 1 1 0 0 - epochSec) ∧
    utcToLocalNaive utcTz (naiveSec 2024 1 1 0 0 - epochSec) = naiveSec 2024 1 1 0 0 :=
  ⟨by decide, by decide, by decide,
    by
      have := C8_roundtrip utcTz cJan 2024 (Sum.inl 1) (some (Sum.inl 1)) (some "00:00")
        (ParsedDateTime.mkValid 2024 1 1 0 0) (naiveSec 2024 1 1 0 0 - epochSec)
        (by decide) (by decide) (by decide) (by decide)
      simpa using this⟩

/-- C9 (amended): an empty time string is parsed as the "not specified"
sentinel (distinct from a parsed 00:00) and yields exactly the same result
as an absent time whenever a month or a day is supplied; but unlike an
absent time it still counts as a passed time argument for the final
time-only adjustment, so with month and day both absent it can replace the
result with the day after the clock date (see the counterexample). -/
theorem C9_empty_time (tz : Timezone) (c : Clock) (year? : Option Int)
    (month? : Option (Sum Int String)) (day? : Option (Sum Int String))
    (hor : month?.isSome = true ∨ day?.isSome = true) :
    parse_time (some "") = TimeResult.notSpecified ∧
    parse tz c year? month? day? (some "") = parse tz c year? month? day? none := by
  have hpt1 : parse_time (some "") = TimeResult.notSpecified := rfl
  have hpt2 : parse_time none = TimeResult.notSpecified := rfl
  refine ⟨rfl, ?_⟩
  rcases day? with _ | dtok
  · rcases month? with _ | mtok
    · simp at hor
    · simp [parse, parse_day, hpt1, hpt2]
  · rcases hdq : parse_day (some dtok) with ⟨pd?, flag⟩
    have hsome := parse_day_some_fst dtok
    rw [hdq] at hsome
    rcases pd? with _ | pd
    · simp at hsome
    · simp [parse, hpt1, hpt2, hdq]

/-- C9 counterexample: with clock 2024-01-10 12:00 UTC and no other
component, an empty time string rolls the result to 2024-01-11 00:00 while
an absent time yields 2024-01-10 00:00 — the empty string does trigger the
roll-to-tomorrow adjustment. -/
theorem C9_counterexample :
    parse utcTz cJan none none none (some "") =
      some (ParsedDateTime.mkValid 2024 1 11 0 0) ∧
    parse utcTz cJan none none none none =
      some (ParsedDateTime.mkValid 2024 1 10 0 0) ∧
    parse utcTz cJan none none none (some "") ≠ parse utcTz cJan none none none none := by
  refine ⟨by decide, by decide, by decide⟩

/-- Witness for the amended C9: with a month supplied, the empty time
string is interchangeable with an absent time. -/
theorem C9_witness :
    ((some (Sum.inl 5) : Option (Sum Int String)).isSome = true ∨
      (none : Option (Sum Int String)).isSome = true) ∧
    parse utcTz cJan none (some (Sum.inl 5)) none (some "") =
      parse utcTz cJan none (some (Sum.inl 5)) none none :=
  ⟨Or.inl rfl,
    (C9_empty_time utcTz cJan none (some (Sum.inl 5)) none (Or.inl rfl)).2⟩

/-- C10: weekday-name matching accepts exactly the strings that are a
case-insensitive prefix of at least one weekday name, resolving an
ambiguous prefix to the first match in Monday-through-Sunday order ("s"
resolves to Saturday, "t" to Tuesday); the empty string is a prefix of
every name, so a day input "" is classified as the weekday Monday rather
than as absent or invalid. -/
theorem C10_weekday_prefix_matching :
    (∀ s : String, ∀ d : Int, parse_day_name s = some d ↔
      (0 ≤ d ∧ d ≤ 6 ∧ strStartsWith (dayName d).toList (pyLower s.toList) = true ∧
        ∀ e : Int, 0 ≤ e → e < d →
          strStartsWith (dayName e).toList (pyLower s.toList) = false)) ∧
    parse_day_name "" = some 0 ∧ parse_day_name "s" = some 5 ∧
    parse_day_name "t" = some 1 ∧
    parse_day (some (Sum.inr "")) = (some 0, true) := by
  refine ⟨?_, by decide, by decide, by decide, by decide⟩
  intro s d
  simp only [parse_day_name, daysOfWeek, findDow]
  constructor
  · intro hp
    split_ifs at hp with h1 h2 h3 h4 h5 h6 h7 <;>
      simp only [Option.some.injEq] at hp <;> subst hp <;>
      refine ⟨by norm_num, by norm_num, by simpa [dayName], ?_⟩ <;>
      intro e he0 helt <;> interval_cases e <;>
      simp_all [dayName]
  · rintro ⟨hd0, hd6, hpre, hmin⟩
    interval_cases d
    · rw [if_pos (by simpa [dayName] using hpre)]
    · rw [if_neg (by simpa [dayName] using hmin 0 (by norm_num) (by norm_num)),
        if_pos (by simpa [dayName] using hpre)]
    · rw [if_neg (by simpa [dayName] using hmin 0 (by norm_num) (by norm_num)),
        if_neg (by simpa [dayName] using hmin 1 (by norm_num) (by norm_num)),
        if_pos (by simpa [dayName] using hpre)]
    · rw [if_neg (by simpa [dayName] using hmin 0 (by norm_num) (by norm_num)),
        if_neg (by simpa [dayName] using hmin 1 (by norm_num) (by norm_num)),
        if_neg (by simpa [dayName] using hmin 2 (by norm_num) (by norm_num)),
        if_pos (by simpa [dayName] using hpre)]
    · rw [if_neg (by simpa [dayName] using hmin 0 (by norm_num) (by norm_num)),
        if_neg (by simpa [dayName] using hmin 1 (by norm_num) (by norm_num)),
        if_neg (by simpa [dayName] using hmin 2 (by norm_num) (by norm_num)),
        if_neg (by simpa [dayName] using hmin 3 (by norm_num) (by norm_num)),
        if_pos (by simpa [dayName] using hpre)]
    · rw [if_neg (by simpa [dayName] using hmin 0 (by norm_num) (by norm_num)),
        if_neg (by simpa [dayName] using hmin 1 (by norm_num) (by norm_num)),
        if_neg (by simpa [dayName] using hmin 2 (by norm_num) (by norm_num)),
        if_neg (by simpa [dayName] using hmin 3 (by norm_num) (by norm_num)),
        if_neg (by simpa [dayName] using hmin 4 (by norm_num) (by norm_num)),
        if_pos (by simpa [dayName] using hpre)]
    · rw [if_neg (by simpa [dayName] using hmin 0 (by norm_num) (by norm_num)),
        if_neg (by simpa [dayName] using hmin 1 (by norm_num) (by norm_num)),
        if_neg (by simpa [dayName] using hmin 2 (by norm_num) (by norm_num)),
        if_neg (by simpa [dayName] using hmin 3 (by norm_num) (by norm_num)),
        if_neg (by simpa [dayName] using hmin 4 (by norm_num) (by norm_num)),
        if_neg (by simpa [dayName] using hmin 5 (by norm_num) (by norm_num)),
        if_pos (by simpa [dayName] using hpre)]

/-- Witness for C1: a concrete valid result (the weekday scenario) lies in
all the ranges. -/
theorem C1_witness :
    cJan.Valid ∧
    parse utcTz cJan none none (some (Sum.inr "Monday")) (some "10am") =
      some (ParsedDateTime.mkValid 2024 1 15 10 0) ∧
    (ParsedDateTime.mkValid 2024 1 15 10 0).is_valid = true ∧
    ((1 ≤ (ParsedDateTime.mkValid 2024 1 15 10 0).month ∧
        (ParsedDateTime.mkValid 2024 1 15 10 0).month ≤ 12) ∧
      (1 ≤ (ParsedDateTime.mkValid 2024 1 15 10 0).day ∧
        (ParsedDateTime.mkValid 2024 1 15 10 0).day ≤
          days_in_month (ParsedDateTime.mkValid 2024 1 15 10 0).year
            (ParsedDateTime.mkValid 2024 1 15 10 0).month) ∧
      (0 ≤ (ParsedDateTime.mkValid 2024 1 15 10 0).hour ∧
        (ParsedDateTime.mkValid 2024 1 15 10 0).hour ≤ 23) ∧
      (0 ≤ (ParsedDateTime.mkValid 2024 1 15 10 0).minute ∧
        (ParsedDateTime.mkValid 2024 1 15 10 0).minute ≤ 59)) :=
  ⟨by decide, by decide, by decide,
    C1_valid_ranges utcTz cJan none none (some (Sum.inr "Monday")) (some "10am")
      (ParsedDateTime.mkValid 2024 1 15 10 0) (by decide) (by decide) (by decide)⟩
